import Mathlib

/-!
# GrabLatestRSS: a verification development

Shallow embedding of `GrabLatestRSS/main.go` (the feed aggregator of the
Hugo-Travelogue site) together with the properties of its components.

Conventions of the embedding:

* a Go `string` is a `GoString`, the list of its bytes, and a string literal
  of the source is the UTF-8 encoding of its characters;
* a `rune` is a natural number (the runes met here are never negative);
* an `error` is the text of its message;
* the outside world (HTTP, the feed parser, the clock, `net/url`, `sort.Slice`)
  enters as explicit arguments.
-/

namespace GrabLatestRSS

/-! ## Strings as bytes, and the UTF-8 primitives of the Go runtime -/

/-- A Go string: an arbitrary sequence of bytes (values below 256), not
necessarily valid UTF-8. -/
abbrev GoString := List Nat

/-- The replacement rune `utf8.RuneError`, U+FFFD. -/
def RuneError : Nat := 0xFFFD

/-- Runes below `utf8.RuneSelf` are single bytes. -/
def RuneSelf : Nat := 0x80

/-- The largest valid code point, `utf8.MaxRune`. -/
def MaxRune : Nat := 0x10FFFF

def surrogateMin : Nat := 0xD800
def surrogateMax : Nat := 0xDFFF

def t2 : Nat := 0xC0
def t3 : Nat := 0xE0
def t4 : Nat := 0xF0
def t5 : Nat := 0xF8
def tx : Nat := 0x80
def maskx : Nat := 0x3F
def mask2 : Nat := 0x1F
def mask3 : Nat := 0x0F
def mask4 : Nat := 0x07
def rune1Max : Nat := 0x7F
def rune2Max : Nat := 0x7FF
def rune3Max : Nat := 0xFFFF
def locb : Nat := 0x80
def hicb : Nat := 0xBF

/-- A Unicode scalar value: what `utf8.ValidRune` accepts. -/
def ValidRune (r : Nat) : Prop := r ≤ 0x10FFFF ∧ ¬ (0xD800 ≤ r ∧ r ≤ 0xDFFF)

/-- The function `decoderune` of the Go runtime, which a `range` loop over a
string calls on a non-ASCII lead byte: the rune that starts at the head of `s`
and the number of bytes it occupies.  Every malformed sequence (a stray
continuation byte, a truncated, overlong, surrogate or out-of-range encoding)
gives `(RuneError, 1)`. -/
def decoderune (s : GoString) : Nat × Nat :=
  match s with
  | [] => (RuneError, 1)
  | s0 :: rest =>
    if t2 ≤ s0 ∧ s0 < t3 then
      match rest with
      | s1 :: _ =>
        if locb ≤ s1 ∧ s1 ≤ hicb then
          let r := ((s0 &&& mask2) <<< 6) ||| (s1 &&& maskx)
          if rune1Max < r then (r, 2) else (RuneError, 1)
        else (RuneError, 1)
      | _ => (RuneError, 1)
    else if t3 ≤ s0 ∧ s0 < t4 then
      match rest with
      | s1 :: s2 :: _ =>
        if (locb ≤ s1 ∧ s1 ≤ hicb) ∧ (locb ≤ s2 ∧ s2 ≤ hicb) then
          let r := ((s0 &&& mask3) <<< 12) ||| ((s1 &&& maskx) <<< 6) ||| (s2 &&& maskx)
          if rune2Max < r ∧ ¬ (surrogateMin ≤ r ∧ r ≤ surrogateMax) then (r, 3)
          else (RuneError, 1)
        else (RuneError, 1)
      | _ => (RuneError, 1)
    else if t4 ≤ s0 ∧ s0 < t5 then
      match rest with
      | s1 :: s2 :: s3 :: _ =>
        if (locb ≤ s1 ∧ s1 ≤ hicb) ∧ (locb ≤ s2 ∧ s2 ≤ hicb) ∧ (locb ≤ s3 ∧ s3 ≤ hicb) then
          let r := ((s0 &&& mask4) <<< 18) ||| ((s1 &&& maskx) <<< 12)
                    ||| ((s2 &&& maskx) <<< 6) ||| (s3 &&& maskx)
          if rune3Max < r ∧ r ≤ MaxRune then (r, 4) else (RuneError, 1)
        else (RuneError, 1)
      | _ => (RuneError, 1)
    else (RuneError, 1)

/-- One iteration header of `for _, r := range content`: a byte below
`RuneSelf` is its own rune, anything else goes through `decoderune`. -/
def rangeStep (s : GoString) : Nat × Nat :=
  match s with
  | [] => (RuneError, 1)
  | c :: _ => if c < RuneSelf then (c, 1) else decoderune s

/-- The conversion `byte(x)`. -/
def byte (x : Nat) : Nat := x % 256

/-- The bytes that `utf8.AppendRune` appends for the rune `r` (what
`bytes.Buffer.WriteRune` adds to the buffer). -/
def appendRune (r : Nat) : GoString :=
  if r ≤ rune1Max then [byte r]
  else if r ≤ rune2Max then [t2 ||| byte (r >>> 6), tx ||| (byte r &&& maskx)]
  else if r > MaxRune ∨ (surrogateMin ≤ r ∧ r ≤ surrogateMax) then
    [t3 ||| byte (RuneError >>> 12), tx ||| (byte (RuneError >>> 6) &&& maskx),
      tx ||| (byte RuneError &&& maskx)]
  else if r ≤ rune3Max then
    [t3 ||| byte (r >>> 12), tx ||| (byte (r >>> 6) &&& maskx), tx ||| (byte r &&& maskx)]
  else
    [t4 ||| byte (r >>> 18), tx ||| (byte (r >>> 12) &&& maskx),
      tx ||| (byte (r >>> 6) &&& maskx), tx ||| (byte r &&& maskx)]

/-- The method `(*bytes.Buffer).WriteRune`: the buffer with the encoding of `r`
appended. -/
def WriteRune (buf : GoString) (r : Nat) : GoString := buf ++ appendRune r

/-! ## cleanXMLContent -/

/-- The test in the body of the loop of `cleanXMLContent`. -/
def keepRune (r : Nat) : Bool :=
  r == 0x09 || r == 0x0A || r == 0x0D || decide (r ≥ 0x20)

/-- The loop of `cleanXMLContent`: `fuel` bounds the number of iterations, `s`
is the part of `content` not yet visited, `buf` the buffer so far. -/
def cleanLoop : Nat → GoString → GoString → GoString
  | 0, _, buf => buf
  | fuel + 1, s, buf =>
    match s with
    | [] => buf
    | _ :: _ =>
      let rw := rangeStep s
      let buf' := if keepRune rw.1 then WriteRune buf rw.1 else buf
      cleanLoop fuel (s.drop rw.2) buf'

/-- The function `cleanXMLContent` of `main.go`.  Each iteration consumes at
least one byte, so `content.length` iterations always reach the end. -/
def cleanXMLContent (content : GoString) : GoString :=
  cleanLoop content.length content []

/-- The runes that `for _, r := range s` yields, in order. -/
def rangeRunes : Nat → GoString → List Nat
  | 0, _ => []
  | fuel + 1, s =>
    match s with
    | [] => []
    | _ :: _ =>
      let rw := rangeStep s
      rw.1 :: rangeRunes fuel (s.drop rw.2)

/-- The sequence of characters of a Go string, as a `range` loop reads it. -/
def runes (s : GoString) : List Nat := rangeRunes s.length s

/-- The number of bytes of `s` that are not part of a well-formed encoding:
the iterations of a `range` loop that come out of `decoderune` with width 1. -/
def invalidLoop : Nat → GoString → Nat
  | 0, _ => 0
  | fuel + 1, s =>
    match s with
    | [] => 0
    | c :: _ =>
      let rw := rangeStep s
      (if RuneSelf ≤ c ∧ rw.2 = 1 then 1 else 0) + invalidLoop fuel (s.drop rw.2)

def invalidBytes (s : GoString) : Nat := invalidLoop s.length s

/-- Validity in the sense of `utf8.ValidString`: no byte is undecodable. -/
def ValidString (s : GoString) : Prop := invalidBytes s = 0

instance (s : GoString) : Decidable (ValidString s) := by
  unfold ValidString; infer_instance

/-- The concatenated encodings of a sequence of runes. -/
def encodeRunes : List Nat → GoString
  | [] => []
  | r :: rs => appendRune r ++ encodeRunes rs

/-! ## Literals and formatting -/

/-- A string literal of the Go source: the UTF-8 encoding of its characters. -/
def lit (s : String) : GoString := encodeRunes (s.toList.map Char.toNat)

/-- The byte of an ASCII character. -/
def ch (c : Char) : Nat := c.toNat

/-- The verb `%d` on a non-negative integer. -/
def fmtInt (n : Nat) : GoString := lit (toString n)

/-- A Go `error`, represented by its message (what `%v` prints). -/
abbrev GoError := GoString

/-- Equality of results is decidable when it is on errors and on values. -/
instance instDecidableEqExcept {ε α : Type} [DecidableEq ε] [DecidableEq α] :
    DecidableEq (Except ε α)
  | .ok a, .ok b =>
    if h : a = b then isTrue (congrArg Except.ok h) else isFalse (fun h' => h (Except.ok.inj h'))
  | .error a, .error b =>
    if h : a = b then isTrue (congrArg Except.error h)
    else isFalse (fun h' => h (Except.error.inj h'))
  | .ok _, .error _ => isFalse (fun h => Except.noConfusion h)
  | .error _, .ok _ => isFalse (fun h => Except.noConfusion h)

/-! ## Maps from string to string -/

/-- A `map[string]string`: the value stored under each key, if any. -/
def GoMap := GoString → Option GoString

/-- The statement `m[k] = v`. -/
def GoMap.set (m : GoMap) (k v : GoString) : GoMap :=
  fun k' => if k' = k then some v else m k'

/-- The empty map of `make(map[string]string)`. -/
def GoMap.empty : GoMap := fun _ => none

/-- The expression `m[k]`: the zero value `""` when the key is absent. -/
def GoMap.index (m : GoMap) (k : GoString) : GoString := (m k).getD []

/-- A map literal. -/
def GoMap.ofList (kvs : List (GoString × GoString)) : GoMap :=
  kvs.foldl (fun m kv => m.set kv.1 kv.2) GoMap.empty

/-! ## Time -/

/-- A `time.Time`: an instant, in nanoseconds since the Unix epoch, together
with the offset east of UTC (in seconds) of the location it is displayed in.
Times are compared by their instant; the monotonic clock reading that
`time.Now` attaches is not represented. -/
structure Time where
  unixNano : Int
  offset : Int
deriving DecidableEq, Repr

/-- The method `t.After(u)`: whether the instant `t` is after `u`. -/
def Time.After (t u : Time) : Bool := decide (u.unixNano < t.unixNano)

/-- The number of days from 1970-01-01 to the given proleptic Gregorian date. -/
def daysFromCivil (year month day : Int) : Int :=
  let y := if month ≤ 2 then year - 1 else year
  let era := y / 400
  let yoe := y - era * 400
  let mp := (month + 9) % 12
  let doy := (153 * mp + 2) / 5 + day - 1
  let doe := yoe * 365 + yoe / 4 - yoe / 100 + doy
  era * 146097 + doe - 719468

/-- The proleptic Gregorian date (year, month, day) of a day number counted
from 1970-01-01. -/
def civilFromDays (days : Int) : Int × Int × Int :=
  let z := days + 719468
  let era := z / 146097
  let doe := z - era * 146097
  let yoe := (doe - doe / 1460 + doe / 36524 - doe / 146096) / 365
  let doy := doe - (365 * yoe + yoe / 4 - yoe / 100)
  let mp := (5 * doy + 2) / 153
  let d := doy - (153 * mp + 2) / 5 + 1
  let m := if mp < 10 then mp + 3 else mp - 9
  let y := yoe + era * 400
  (if m ≤ 2 then y + 1 else y, m, d)

/-- The function `time.Date` for a location with a fixed offset. -/
def Date (year month day hour min sec nsec : Int) (loc : Int) : Time :=
  { unixNano :=
      ((daysFromCivil year month day * 86400 + hour * 3600 + min * 60 + sec) - loc)
        * 1000000000 + nsec
    offset := loc }

/-- A non-negative number in decimal, padded with zeros to `width` digits. -/
def zeroPad (width : Nat) (n : Nat) : GoString :=
  let ds := lit (toString n)
  List.replicate (width - ds.length) (ch '0') ++ ds

/-- An integer padded to `width` digits, with a leading minus sign when
negative (`appendInt` of package time). -/
def appendInt (x : Int) (width : Nat) : GoString :=
  if x < 0 then ch '-' :: zeroPad width (-x).toNat else zeroPad width x.toNat

/-- The call `t.Format("2006-01-02")`: the calendar date of `t` in its
location. -/
def Time.Format (t : Time) : GoString :=
  let secs := t.unixNano / 1000000000 + t.offset
  let ymd := civilFromDays (secs / 86400)
  appendInt ymd.1 4 ++ [ch '-'] ++ zeroPad 2 ymd.2.1.toNat ++ [ch '-'] ++ zeroPad 2 ymd.2.2.toNat

/-! ## URLs (package net/url)

`extractDomain` reads two things from a parsed URL: the field `Scheme` and the
method `Hostname`.  The structure below keeps the fields that `url.Parse`
fills from the text of the URL (`RawPath`, `RawFragment`, `ForceQuery` and
`OmitHost`, which only affect printing, are left out).  `urlParse` follows
`url.Parse` for the generic form
`[scheme:][//[userinfo@]host][/]path[?query][#fragment]`; the program itself is
embedded over an arbitrary parsing function, so that its properties do not
depend on this model.  Errors carry the text of the cause only, without the
`parse "...":` prefix that `url.Parse` puts before it. -/

structure URL where
  Scheme : GoString := []
  Opaque : GoString := []
  User : Option (GoString × Option GoString) := none
  Host : GoString := []
  Path : GoString := []
  RawQuery : GoString := []
  Fragment : GoString := []
deriving DecidableEq, Repr

/-- The function `strings.Cut` for a one-byte separator: the text before and
after the first occurrence of `sep`, if there is one. -/
def cutByte (sep : Nat) : GoString → Option (GoString × GoString)
  | [] => none
  | c :: rest =>
    if c = sep then some ([], rest)
    else match cutByte sep rest with
      | some (before, after) => some (c :: before, after)
      | none => none

/-- The text before the last occurrence of `sep` and the text from that
occurrence on (`s[:i]` and `s[i:]` for `i := strings.LastIndexByte(s, sep)`). -/
def splitLastByte (sep : Nat) (s : GoString) : Option (GoString × GoString) :=
  match cutByte sep s.reverse with
  | some (afterRev, beforeRev) => some (beforeRev.reverse, sep :: afterRev.reverse)
  | none => none

def isDigit (c : Nat) : Bool := decide (ch '0' ≤ c ∧ c ≤ ch '9')

def isLetter (c : Nat) : Bool :=
  decide ((ch 'a' ≤ c ∧ c ≤ ch 'z') ∨ (ch 'A' ≤ c ∧ c ≤ ch 'Z'))

/-- The function `validOptionalPort`: empty, or a colon followed by digits. -/
def validOptionalPort (port : GoString) : Bool :=
  match port with
  | [] => true
  | c :: digits => c == ch ':' && digits.all isDigit

/-- The function `splitHostPort`, first component. -/
def splitHostPort (hostPort : GoString) : GoString :=
  let host :=
    match splitLastByte (ch ':') hostPort with
    | some (before, colonPort) => if validOptionalPort colonPort then before else hostPort
    | none => hostPort
  if host.head? = some (ch '[') ∧ host.getLast? = some (ch ']') then
    (host.drop 1).dropLast
  else host

/-- The method `(*URL).Hostname`: the host without a valid port number and
without the square brackets of an IPv6 literal. -/
def URL.Hostname (u : URL) : GoString := splitHostPort u.Host

/-- The escaping modes of package net/url. -/
inductive encoding
  | encodePath | encodePathSegment | encodeHost | encodeZone | encodeUserPassword
  | encodeQueryComponent | encodeFragment
deriving DecidableEq, Repr

open encoding

/-- The function `shouldEscape`. -/
def shouldEscape (c : Nat) (mode : encoding) : Bool :=
  if isLetter c || isDigit c then false
  else if (mode = encodeHost ∨ mode = encodeZone) ∧
      c ∈ [ch '!', ch '$', ch '&', 0x27, ch '(', ch ')', ch '*', ch '+', ch ',', ch ';',
        ch '=', ch ':', ch '[', ch ']', ch '<', ch '>', 0x22] then false
  else if c ∈ [ch '-', ch '_', ch '.', ch '~'] then false
  else if c ∈ [ch '$', ch '&', ch '+', ch ',', ch '/', ch ':', ch ';', ch '=', ch '?', ch '@']
      ∧ mode = encodePath then c == ch '?'
  else if c ∈ [ch '$', ch '&', ch '+', ch ',', ch '/', ch ':', ch ';', ch '=', ch '?', ch '@']
      ∧ mode = encodePathSegment then
    c == ch '/' || c == ch ';' || c == ch ',' || c == ch '?'
  else if c ∈ [ch '$', ch '&', ch '+', ch ',', ch '/', ch ':', ch ';', ch '=', ch '?', ch '@']
      ∧ mode = encodeUserPassword then
    c == ch '@' || c == ch '/' || c == ch '?' || c == ch ':'
  else if c ∈ [ch '$', ch '&', ch '+', ch ',', ch '/', ch ':', ch ';', ch '=', ch '?', ch '@']
      ∧ mode = encodeQueryComponent then true
  else if c ∈ [ch '$', ch '&', ch '+', ch ',', ch '/', ch ':', ch ';', ch '=', ch '?', ch '@']
      ∧ mode = encodeFragment then false
  else if mode = encodeFragment ∧ c ∈ [ch '!', ch '(', ch ')', ch '*'] then false
  else true

def ishex (c : Nat) : Bool :=
  isDigit c || decide (ch 'a' ≤ c ∧ c ≤ ch 'f') || decide (ch 'A' ≤ c ∧ c ≤ ch 'F')

def unhex (c : Nat) : Nat :=
  if isDigit c then c - ch '0'
  else if ch 'a' ≤ c ∧ c ≤ ch 'f' then c - ch 'a' + 10
  else if ch 'A' ≤ c ∧ c ≤ ch 'F' then c - ch 'A' + 10
  else 0

/-- The function `unescape`: the text with every `%XY` replaced by the byte it
denotes (and `+` by a space in a query component), or an error on a malformed
escape, on an escape that the host or zone may not contain, or on a byte that
a host may not contain. -/
def unescape : GoString → encoding → Except GoError GoString
  | [], _ => .ok []
  | c :: rest, mode =>
    if c = ch '%' then
      match rest with
      | h1 :: h2 :: rest2 =>
        if ¬ (ishex h1 ∧ ishex h2) then .error (lit "invalid URL escape")
        else if mode = encodeHost ∧ unhex h1 < 8 ∧ ¬ (h1 = ch '2' ∧ h2 = ch '5') then
          .error (lit "invalid URL escape")
        else if mode = encodeZone ∧ ¬ (h1 = ch '2' ∧ h2 = ch '5')
            ∧ (unhex h1 <<< 4 ||| unhex h2) ≠ ch ' '
            ∧ shouldEscape (unhex h1 <<< 4 ||| unhex h2) encodeHost then
          .error (lit "invalid URL escape")
        else
          match unescape rest2 mode with
          | .ok t => .ok ((unhex h1 <<< 4 ||| unhex h2) :: t)
          | .error e => .error e
      | _ => .error (lit "invalid URL escape")
    else if c = ch '+' then
      match unescape rest mode with
      | .ok t => .ok ((if mode = encodeQueryComponent then ch ' ' else ch '+') :: t)
      | .error e => .error e
    else if (mode = encodeHost ∨ mode = encodeZone) ∧ c < 0x80 ∧ shouldEscape c encodeHost then
      .error (lit "invalid character in host name")
    else
      match unescape rest mode with
      | .ok t => .ok (c :: t)
      | .error e => .error e

/-- The function `getScheme`, from position `i` of `rawURL` on: the scheme and
the text after its colon, or no scheme and the whole text. -/
def getSchemeFrom (rawURL : GoString) : Nat → GoString → Except GoError (GoString × GoString)
  | _, [] => .ok ([], rawURL)
  | i, c :: rest =>
    if isLetter c then getSchemeFrom rawURL (i + 1) rest
    else if isDigit c ∨ c = ch '+' ∨ c = ch '-' ∨ c = ch '.' then
      if i = 0 then .ok ([], rawURL) else getSchemeFrom rawURL (i + 1) rest
    else if c = ch ':' then
      if i = 0 then .error (lit "missing protocol scheme") else .ok (rawURL.take i, rest)
    else .ok ([], rawURL)

def getScheme (rawURL : GoString) : Except GoError (GoString × GoString) :=
  getSchemeFrom rawURL 0 rawURL

/-- The function `strings.ToLower` on ASCII text. -/
def toLower (s : GoString) : GoString :=
  s.map (fun c => if ch 'A' ≤ c ∧ c ≤ ch 'Z' then c + 32 else c)

def stringContainsCTLByte (s : GoString) : Bool :=
  s.any (fun b => decide (b < ch ' ' ∨ b = 0x7f))

/-- The function `validUserinfo`. -/
def validUserinfo (s : GoString) : Bool :=
  s.all (fun r => isLetter r || isDigit r ||
    decide (r ∈ [ch '-', ch '.', ch '_', ch ':', ch '~', ch '!', ch '$', ch '&', 0x27, ch '(',
      ch ')', ch '*', ch '+', ch ',', ch ';', ch '=', ch '%', ch '@']))

/-- The position of the first `%25` of `s`, if any: the text before it and the
text from it on. -/
def splitZone : GoString → Option (GoString × GoString)
  | [] => none
  | c :: rest =>
    if (lit "%25").isPrefixOf (c :: rest) then some ([], c :: rest)
    else match splitZone rest with
      | some (before, from25) => some (c :: before, from25)
      | none => none

/-- The function `parseHost`. -/
def parseHost (host : GoString) : Except GoError GoString :=
  if host.head? = some (ch '[') then
    match splitLastByte (ch ']') host with
    | none => .error (lit "missing ']' in host")
    | some (beforeBracket, fromBracket) =>
      if ¬ validOptionalPort (fromBracket.drop 1) then .error (lit "invalid port after host")
      else
        match splitZone beforeBracket with
        | some (host1, zone) =>
          match unescape host1 encodeHost, unescape zone encodeZone,
              unescape fromBracket encodeHost with
          | .ok h1, .ok h2, .ok h3 => .ok (h1 ++ h2 ++ h3)
          | .error e, _, _ => .error e
          | _, .error e, _ => .error e
          | _, _, .error e => .error e
        | none => unescape host encodeHost
  else
    match splitLastByte (ch ':') host with
    | some (_, colonPort) =>
      if ¬ validOptionalPort colonPort then .error (lit "invalid port after host")
      else unescape host encodeHost
    | none => unescape host encodeHost

/-- The function `parseAuthority`: the user information and the host. -/
def parseAuthority (authority : GoString) :
    Except GoError (Option (GoString × Option GoString) × GoString) :=
  match splitLastByte (ch '@') authority with
  | none =>
    match parseHost authority with
    | .ok host => .ok (none, host)
    | .error e => .error e
  | some (userinfo, atHost) =>
    match parseHost (atHost.drop 1) with
    | .error e => .error e
    | .ok host =>
      if ¬ validUserinfo userinfo then .error (lit "net/url: invalid userinfo")
      else
        match cutByte (ch ':') userinfo with
        | none =>
          match unescape userinfo encodeUserPassword with
          | .ok u => .ok (some (u, none), host)
          | .error e => .error e
        | some (username, password) =>
          match unescape username encodeUserPassword, unescape password encodeUserPassword with
          | .ok u, .ok p => .ok (some (u, some p), host)
          | .error e, _ => .error e
          | _, .error e => .error e

/-- The function `parse` of package net/url with `viaRequest` false: a URL
without its fragment. -/
def parse (rawURL : GoString) : Except GoError URL :=
  if stringContainsCTLByte rawURL then .error (lit "net/url: invalid control character in URL")
  else if rawURL = lit "*" then .ok { Path := lit "*" }
  else
    match getScheme rawURL with
    | .error e => .error e
    | .ok (scheme, afterScheme) =>
      let scheme := toLower scheme
      let split : GoString × GoString :=
        if afterScheme.getLast? = some (ch '?') ∧ afterScheme.count (ch '?') = 1 then
          (afterScheme.dropLast, [])
        else match cutByte (ch '?') afterScheme with
          | some (before, after) => (before, after)
          | none => (afterScheme, [])
      let rest := split.1
      let rawQuery := split.2
      if rest.head? ≠ some (ch '/') ∧ scheme ≠ [] then
        .ok { Scheme := scheme, Opaque := rest, RawQuery := rawQuery }
      else if rest.head? ≠ some (ch '/') ∧
          (ch ':') ∈ (match cutByte (ch '/') rest with
            | some (segment, _) => segment
            | none => rest) then
        .error (lit "first path segment in URL cannot contain colon")
      else if (scheme ≠ [] ∨ ¬ (lit "///").isPrefixOf rest) ∧ (lit "//").isPrefixOf rest then
        let afterSlashes := rest.drop 2
        let authPath : GoString × GoString :=
          match cutByte (ch '/') afterSlashes with
          | some (authority, path) => (authority, ch '/' :: path)
          | none => (afterSlashes, [])
        match parseAuthority authPath.1 with
        | .error e => .error e
        | .ok (user, host) =>
          match unescape authPath.2 encodePath with
          | .error e => .error e
          | .ok path =>
            .ok { Scheme := scheme, User := user, Host := host, Path := path,
                  RawQuery := rawQuery }
      else
        match unescape rest encodePath with
        | .error e => .error e
        | .ok path => .ok { Scheme := scheme, Path := path, RawQuery := rawQuery }

/-- The function `url.Parse`: the fragment is cut off first, the rest goes
through `parse`. -/
def urlParse (rawURL : GoString) : Except GoError URL :=
  let uf : GoString × GoString :=
    match cutByte (ch '#') rawURL with
    | some (u, frag) => (u, frag)
    | none => (rawURL, [])
  match parse uf.1 with
  | .error e => .error e
  | .ok url =>
    if uf.2 = [] then .ok url
    else
      match unescape uf.2 encodeFragment with
      | .error e => .error e
      | .ok frag => .ok { url with Fragment := frag }

/-! ## extractDomain -/

/-- The function `extractDomain` of `main.go`, over the parsing function
`urlParse` that stands for `url.Parse`. -/
def extractDomain (urlParse : GoString → Except GoError URL) (urlStr : GoString) :
    Except GoError GoString :=
  match urlParse urlStr with
  | .error err => .error err
  | .ok u =>
    let domain := u.Hostname
    let protocol := if u.Scheme ≠ [] then u.Scheme ++ lit "://" else lit "https://"
    if domain = [] then .error (lit "empty domain from url: " ++ urlStr)
    else .ok (protocol ++ domain)


/-! ## The data of the program -/

set_option linter.dupNamespace false in
/-- The type `Avatar` of `main.go`. -/
structure Avatar where
  Name : GoString
  Avatar : GoString
deriving DecidableEq, Repr

/-- The type `Article` of `main.go`. -/
structure Article where
  DomainName : GoString
  Name : GoString
  Title : GoString
  Link : GoString
  Date : GoString
  Avatar : GoString
  DateTime : Time
deriving DecidableEq, Repr

/-- The fields of a `gofeed.Item` that the program reads; the two times are
pointers, `none` standing for `nil`. -/
structure Item where
  Title : GoString
  Link : GoString
  PublishedParsed : Option Time
  UpdatedParsed : Option Time
deriving DecidableEq, Repr

/-- The fields of a `gofeed.Feed` that the program reads. -/
structure Feed where
  Title : GoString
  Link : GoString
  Items : List Item
deriving DecidableEq, Repr

def maxRetries : Nat := 3

/-- The function `logError`, on the log seen as the list of the messages
written to it: each call adds one line, which in the file is the message
behind a timestamp.  A log file that cannot be created or written is outside
the embedding. -/
def logError (log : List GoString) (message : GoString) : List GoString :=
  log ++ [message]

/-- The loop of `loadAvatars` over the decoded list of avatars: a later entry
replaces an earlier one of the same name. -/
def loadAvatars (avatars : List Avatar) : GoMap :=
  avatars.foldl (fun avatarMap a => avatarMap.set a.Name a.Avatar) GoMap.empty

/-! ## The outside world -/

/-- What the program gets from outside during one run.  `Get pos i feedURL`
is the outcome of the `i`-th call of `httpClient.Get(feedURL)` (with the body
read) made by the goroutine of position `pos` of the feed list,
`ParseString pos i body` the outcome of its `i`-th call of `fp.ParseString`,
`Now pos` what `time.Now()` returns to it, `urlParse` is `url.Parse` and
`sortSlice less x` is the slice `x` after `sort.Slice(x, less)`. -/
structure World where
  Get : Nat → Nat → GoString → Except GoError GoString
  ParseString : Nat → Nat → GoString → Except GoError Feed
  Now : Nat → Time
  urlParse : GoString → Except GoError URL
  sortSlice : (Article → Article → Bool) → List Article → List Article

/-- A transitive ordering in the sense that `sort.Slice` requires of `less`. -/
def IsStrictWeak {α : Type} (less : α → α → Bool) : Prop :=
  (∀ a, less a a = false) ∧
  (∀ a b c, less a b = true → less b c = true → less a c = true) ∧
  (∀ a b c, less a b = false → less b c = false → less a c = false)

/-- What the documentation of `sort.Slice` promises of it: the result is a
rearrangement of the slice in which no element is `less` than one that stands
before it.  Nothing is promised about the order of equal elements. -/
def SortContract (sortSlice : (Article → Article → Bool) → List Article → List Article) :
    Prop :=
  (∀ less l, (sortSlice less l).Perm l) ∧
  (∀ less l, IsStrictWeak less → (sortSlice less l).Pairwise (fun a b => less b a = false))

/-- One pass of the inner loop of `insertionSortLessFunc`: the new element
moves left past every element it is `less` than.  The sorted prefix is given
and returned last element first. -/
def sink {α : Type} (less : α → α → Bool) (x : α) : List α → List α
  | [] => [x]
  | y :: ys => if less x y then y :: sink less x ys else x :: y :: ys

/-- The function `insertionSortLessFunc` of package sort, which `sort.Slice`
runs on slices of at most twelve elements. -/
def insertionSort {α : Type} (less : α → α → Bool) (l : List α) : List α :=
  (l.foldl (fun sortedRev x => sink less x sortedRev) []).reverse

/-! ## The goroutine of one feed -/

/-- The variables of the fetch stage, with the log lines it has written, the
number of GET requests it has made and the number of times it has slept. -/
structure FetchState where
  bodyString : GoString := []
  fetchErr : Option GoError := none
  log : List GoString := []
  attempts : Nat := 0
  sleeps : Nat := 0
deriving DecidableEq, Repr

/-- The loop `for i := 0; i < maxRetries; i++` of the fetch stage, from
iteration `i` with `fuel` iterations left. -/
def fetchLoop (get : Nat → Except GoError GoString) (feedURL : GoString) :
    Nat → Nat → FetchState → FetchState
  | 0, _, st => st
  | fuel + 1, i, st =>
    if i < maxRetries then
      match get i with
      | .ok body =>
        { st with bodyString := body, fetchErr := none, attempts := st.attempts + 1 }
      | .error fetchErr =>
        fetchLoop get feedURL fuel (i + 1)
          { st with
            fetchErr := some fetchErr
            attempts := st.attempts + 1
            log := logError st.log
              (lit "Get RSS error: " ++ feedURL ++ lit " (attempt " ++ fmtInt (i + 1)
                ++ lit "/" ++ fmtInt maxRetries ++ lit "): " ++ fetchErr)
            sleeps := st.sleeps + 1 }
    else st

/-- The fetch stage of a goroutine: the retry loop, then the log line of a
terminal failure. -/
def fetchStage (get : Nat → Except GoError GoString) (feedURL : GoString) : FetchState :=
  let st := fetchLoop get feedURL maxRetries 0 {}
  match st.fetchErr with
  | some fetchErr =>
    { st with log := logError st.log (lit "Failed to fetch RSS: " ++ feedURL ++ lit ": " ++ fetchErr) }
  | none => st

/-- The variables of the parse stage. -/
structure ParseState where
  feed : Option Feed := none
  parseErr : Option GoError := none
  log : List GoString := []
  attempts : Nat := 0
  sleeps : Nat := 0
deriving DecidableEq, Repr

/-- The loop `for i := 0; i < maxRetries; i++` of the parse stage. -/
def parseLoop (parseString : Nat → Except GoError Feed) (feedURL : GoString) :
    Nat → Nat → ParseState → ParseState
  | 0, _, st => st
  | fuel + 1, i, st =>
    if i < maxRetries then
      match parseString i with
      | .ok feed =>
        { st with feed := some feed, parseErr := none, attempts := st.attempts + 1 }
      | .error parseErr =>
        parseLoop parseString feedURL fuel (i + 1)
          { st with
            feed := none
            parseErr := some parseErr
            attempts := st.attempts + 1
            log := logError st.log
              (lit "Parse RSS error: " ++ feedURL ++ lit " (attempt " ++ fmtInt (i + 1)
                ++ lit "/" ++ fmtInt maxRetries ++ lit "): " ++ parseErr)
            sleeps := st.sleeps + 1 }
    else st

/-- The parse stage of a goroutine, which goes on writing to the log `log`. -/
def parseStage (parseString : Nat → Except GoError Feed) (feedURL : GoString)
    (log : List GoString) : ParseState :=
  let st := parseLoop parseString feedURL maxRetries 0 { log := log }
  match st.parseErr with
  | some parseErr =>
    { st with log := logError st.log (lit "Failed to parse RSS: " ++ feedURL ++ lit ": " ++ parseErr) }
  | none => st

/-- The time an article is dated with. -/
def publishedTime (now : Time) (item : Item) : Time :=
  match item.PublishedParsed with
  | some t => t
  | none =>
    match item.UpdatedParsed with
    | some t => t
    | none => now

/-- The map `nameMapping` of `fetchRSS`. -/
def nameMapping : GoMap :=
  GoMap.ofList
    [ (lit "obaby@mars", lit "obaby"),
      (lit "青山小站 | 一个在帝都搬砖的新时代农民工", lit "青山小站"),
      (lit "Homepage on Miao Yu | 于淼", lit "于淼"),
      (lit "Homepage on Yihui Xie | 谢益辉", lit "谢益辉") ]

def defaultAvatar : GoString := lit "https://cos.lhasa.icu/LinksAvatar/default.png"

/-- The name of a feed after `nameMapping`. -/
def resolveName (title : GoString) : GoString :=
  match nameMapping title with
  | some mapped => mapped
  | none => title

/-- The avatar of a name. -/
def resolveAvatar (avatars : GoMap) (name : GoString) : GoString :=
  let avatarURL := avatars.index name
  if avatarURL = [] then defaultAvatar else avatarURL

/-- The domain of a feed: empty when the feed has no link or `extractDomain`
fails on it. -/
def resolveDomain (urlParse : GoString → Except GoError URL) (link : GoString) : GoString :=
  if link ≠ [] then
    match extractDomain urlParse link with
    | .ok domain => domain
    | .error _ => []
  else []

/-- The article that a goroutine appends for a parsed feed and its first
item. -/
def buildArticle (W : World) (avatars : GoMap) (pos : Nat) (feed : Feed) (item : Item) :
    Article :=
  let publishedTime := publishedTime (W.Now pos) item
  let name := resolveName feed.Title
  let avatarURL := resolveAvatar avatars name
  let domainName := resolveDomain W.urlParse feed.Link
  { DomainName := domainName
    Name := name
    Title := item.Title
    Link := item.Link
    Avatar := avatarURL
    Date := publishedTime.Format
    DateTime := publishedTime }

/-- What one goroutine leaves behind: the article it appends, if any, and the
lines it writes to the log. -/
structure UnitResult where
  article : Option Article
  log : List GoString
deriving DecidableEq, Repr

/-- The body of the goroutine that `fetchRSS` starts for the feed at position
`pos` of the list. -/
def goroutine (W : World) (avatars : GoMap) (pos : Nat) (feedURL : GoString) : UnitResult :=
  let fs := fetchStage (fun i => W.Get pos i feedURL) feedURL
  match fs.fetchErr with
  | some _ => { article := none, log := fs.log }
  | none =>
    let cleanBody := cleanXMLContent fs.bodyString
    let ps := parseStage (fun i => W.ParseString pos i cleanBody) feedURL fs.log
    match ps.parseErr with
    | some _ => { article := none, log := ps.log }
    | none =>
      match ps.feed with
      | none => { article := none, log := ps.log }
      | some feed =>
        match feed.Items with
        | [] => { article := none, log := ps.log }
        | item :: _ => { article := some (buildArticle W avatars pos feed item), log := ps.log }

/-- The fetch of the feed at position `pos` succeeds with `body`: one of the
`maxRetries` attempts succeeds, and `body` is what the first such attempt
returns. -/
def FetchSucceeds (W : World) (pos : Nat) (feedURL body : GoString) : Prop :=
  ∃ k, k < maxRetries ∧ (∀ j, j < k → ∃ e, W.Get pos j feedURL = .error e) ∧
    W.Get pos k feedURL = .ok body

/-- The parse of the sanitized `body` at position `pos` succeeds with `feed`:
one of the `maxRetries` attempts succeeds, and `feed` is what the first such
attempt returns. -/
def ParseSucceeds (W : World) (pos : Nat) (body : GoString) (feed : Feed) : Prop :=
  ∃ k, k < maxRetries ∧
    (∀ j, j < k → ∃ e, W.ParseString pos j (cleanXMLContent body) = .error e) ∧
    W.ParseString pos k (cleanXMLContent body) = .ok feed

/-! ## fetchRSS, writeJSON and main -/

/-- The comparison that `fetchRSS` passes to `sort.Slice`. -/
def lessByDateTime (a b : Article) : Bool := a.DateTime.After b.DateTime

/-- What the goroutine of position `pos` appends to `articles`. -/
def contribution (W : World) (feeds : List GoString) (avatars : GoMap) (pos : Nat) :
    Option Article :=
  match feeds[pos]? with
  | some feedURL => (goroutine W avatars pos feedURL).article
  | none => none

/-- The slice `articles` when `wg.Wait()` returns: `sched` lists the positions
of the feed list in the order in which their goroutines reach the critical
section, and each goroutine that has an article appends it there. -/
def appended (W : World) (sched : List Nat) (feeds : List GoString) (avatars : GoMap) :
    List Article :=
  sched.filterMap (contribution W feeds avatars)

/-- The function `fetchRSS` of `main.go`; its error is always `nil`. -/
def fetchRSS (W : World) (sched : List Nat) (feeds : List GoString) (avatars : GoMap) :
    Except GoError (List Article) :=
  .ok (W.sortSlice lessByDateTime (appended W sched feeds avatars))

/-- A JSON object with string values: its members in order. -/
abbrev JSONObject := List (GoString × GoString)

/-- The JSON object of an article: the six fields that have a JSON name, in
the order of their declaration (`DateTime` is tagged `json:"-"`). -/
def jsonObject (a : Article) : JSONObject :=
  [ (lit "domainName", a.DomainName),
    (lit "name", a.Name),
    (lit "title", a.Title),
    (lit "link", a.Link),
    (lit "date", a.Date),
    (lit "avatar", a.Avatar) ]

/-- The document that `writeJSON` marshals and writes: one object for each
article, in the order of the slice. -/
def writeJSON (data : List Article) : List JSONObject :=
  data.map jsonObject

/-- The article `manual` of `main`; `Local` is the offset of `time.Local`. -/
def manual (Local : Int) : Article :=
  { DomainName := lit "https://foreverblog.cn"
    Name := lit "十年之约"
    Title := lit "穿梭虫洞-随机访问十年之约友链博客"
    Link := lit "https://foreverblog.cn/go.html"
    Date := lit "2000-01-01"
    Avatar := lit "https://cos.lhasa.icu/LinksAvatar/foreverblog.cn.png"
    DateTime := Date 2000 1 1 0 0 0 0 Local }

/-- The function `main`, from the results of `readFeeds` and `loadAvatars` on:
the slice handed to `writeJSON`, or `none` when the run stops before. -/
def main (W : World) (sched : List Nat) (Local : Int)
    (readFeeds : Except GoError (List GoString)) (loadAvatars : Except GoError GoMap) :
    Option (List Article) :=
  match readFeeds with
  | .error _ => none
  | .ok feeds =>
    match loadAvatars with
    | .error _ => none
    | .ok avatars =>
      match fetchRSS W sched feeds avatars with
      | .error _ => none
      | .ok articles => some (articles ++ [manual Local])

/-! ## A world to run the program in -/

/-- A world in which every request succeeds at once and returns the URL it was
made to as body, every body parses to a feed named after it with a single
item, stamped `stamp body`, the clock shows `now`, and slices are sorted by
insertion. -/
def sampleWorld (stamp : GoString → Option Time) (now : Time) : World :=
  { Get := fun _ _ feedURL => .ok feedURL
    ParseString := fun _ _ body =>
      .ok { Title := body, Link := body,
            Items := [{ Title := lit "post", Link := body ++ lit "/post",
                        PublishedParsed := stamp body, UpdatedParsed := none }] }
    Now := fun _ => now
    urlParse := urlParse
    sortSlice := insertionSort }

/-- A world like `sampleWorld`, except that the first request to every feed
fails and the second succeeds. -/
def retryWorld (stamp : GoString → Option Time) (now : Time) : World :=
  { sampleWorld stamp now with
    Get := fun _ i feedURL => if i = 0 then .error (lit "timeout") else .ok feedURL }

/-! # Properties -/

/-! ## Bit operations as arithmetic -/

theorem and_maskx (x : Nat) : x &&& 63 = x % 64 := Nat.and_pow_two_sub_one_eq_mod x 6
theorem and_mask2 (x : Nat) : x &&& 31 = x % 32 := Nat.and_pow_two_sub_one_eq_mod x 5
theorem and_mask3 (x : Nat) : x &&& 15 = x % 16 := Nat.and_pow_two_sub_one_eq_mod x 4
theorem and_mask4 (x : Nat) : x &&& 7 = x % 8 := Nat.and_pow_two_sub_one_eq_mod x 3

theorem or_eq_add (k a b : Nat) (hb : b < 2 ^ k) (ha : a % 2 ^ k = 0) : a ||| b = a + b := by
  have h := Nat.mul_add_lt_is_or hb (a / 2 ^ k)
  have e : 2 ^ k * (a / 2 ^ k) = a := by
    have := Nat.div_add_mod a (2 ^ k)
    omega
  rw [e] at h
  exact h.symm

theorem tx_or (x : Nat) (h : x < 64) : 128 ||| x = 128 + x :=
  or_eq_add 6 128 x (by simpa using h) (by norm_num)
theorem t2_or (x : Nat) (h : x < 32) : 192 ||| x = 192 + x :=
  or_eq_add 5 192 x (by simpa using h) (by norm_num)
theorem t3_or (x : Nat) (h : x < 16) : 224 ||| x = 224 + x :=
  or_eq_add 4 224 x (by simpa using h) (by norm_num)
theorem t4_or (x : Nat) (h : x < 8) : 240 ||| x = 240 + x :=
  or_eq_add 3 240 x (by simpa using h) (by norm_num)

theorem dec2 (a b : Nat) : ((a &&& 31) <<< 6) ||| (b &&& 63) = (a % 32) * 64 + b % 64 := by
  rw [and_mask2, and_maskx, Nat.shiftLeft_eq]
  exact or_eq_add 6 _ _ (by norm_num; omega) (by norm_num)

theorem dec3 (a b c : Nat) :
    ((a &&& 15) <<< 12) ||| ((b &&& 63) <<< 6) ||| (c &&& 63)
      = (a % 16) * 4096 + (b % 64) * 64 + c % 64 := by
  rw [and_mask3, and_maskx, and_maskx, Nat.shiftLeft_eq, Nat.shiftLeft_eq]
  have e1 : (a % 16 * 2 ^ 12) ||| (b % 64 * 2 ^ 6) = a % 16 * 4096 + b % 64 * 64 :=
    or_eq_add 12 _ _ (by norm_num; omega) (by norm_num)
  rw [e1]
  exact or_eq_add 6 _ _ (by norm_num; omega) (by norm_num; omega)

theorem dec4 (a b c d : Nat) :
    ((a &&& 7) <<< 18) ||| ((b &&& 63) <<< 12) ||| ((c &&& 63) <<< 6) ||| (d &&& 63)
      = (a % 8) * 262144 + (b % 64) * 4096 + (c % 64) * 64 + d % 64 := by
  rw [and_mask4, and_maskx, and_maskx, and_maskx, Nat.shiftLeft_eq, Nat.shiftLeft_eq,
    Nat.shiftLeft_eq]
  have e1 : (a % 8 * 2 ^ 18) ||| (b % 64 * 2 ^ 12) = a % 8 * 262144 + b % 64 * 4096 :=
    or_eq_add 18 _ _ (by norm_num; omega) (by norm_num)
  rw [e1]
  have e2 : (a % 8 * 262144 + b % 64 * 4096) ||| (c % 64 * 2 ^ 6)
      = a % 8 * 262144 + b % 64 * 4096 + c % 64 * 64 :=
    or_eq_add 12 _ _ (by norm_num; omega) (by norm_num; omega)
  rw [e2]
  exact or_eq_add 6 _ _ (by norm_num; omega) (by norm_num; omega)

/-- The encoding of a rune, with the bit operations written as arithmetic. -/
theorem appendRune_eq (r : Nat) :
    appendRune r =
      if r ≤ 0x7F then [r]
      else if r ≤ 0x7FF then [192 + r / 64, 128 + r % 64]
      else if r > 0x10FFFF ∨ (0xD800 ≤ r ∧ r ≤ 0xDFFF) then [239, 191, 189]
      else if r ≤ 0xFFFF then [224 + r / 4096, 128 + r / 64 % 64, 128 + r % 64]
      else [240 + r / 262144, 128 + r / 4096 % 64, 128 + r / 64 % 64, 128 + r % 64] := by
  unfold appendRune
  simp only [rune1Max, rune2Max, rune3Max, MaxRune, surrogateMin, surrogateMax, t2, t3, t4, tx,
    maskx, byte, RuneError, Nat.shiftRight_eq_div_pow, and_maskx]
  split
  · rename_i h; congr 1; omega
  split
  · rename_i h1 h2
    rw [t2_or _ (by omega), tx_or _ (by omega)]
    congr 1; · omega
    congr 1; omega
  split
  · rfl
  split
  · rename_i h1 h2 h3 h4
    rw [t3_or _ (by omega), tx_or _ (by omega), tx_or _ (by omega)]
    have e1 : r / 2 ^ 12 % 256 = r / 4096 := by norm_num; omega
    have e2 : r / 2 ^ 6 % 256 % 64 = r / 64 % 64 := by norm_num
    have e3 : r % 256 % 64 = r % 64 := by omega
    rw [e1, e2, e3]
  · rename_i h1 h2 h3 h4
    rw [t4_or _ (by omega), tx_or _ (by omega), tx_or _ (by omega), tx_or _ (by omega)]
    have e1 : r / 2 ^ 18 % 256 = r / 262144 := by norm_num; omega
    have e2 : r / 2 ^ 12 % 256 % 64 = r / 4096 % 64 := by norm_num
    have e3 : r / 2 ^ 6 % 256 % 64 = r / 64 % 64 := by norm_num
    have e4 : r % 256 % 64 = r % 64 := by omega
    rw [e1, e2, e3, e4]

/-! ## One step of the range loop -/

/-- What `decoderune` returns: either the error pair, or a rune of two to four
bytes whose encoding is exactly the bytes it was read from. -/
theorem decoderune_spec (s : GoString) :
    decoderune s = (RuneError, 1) ∨
      (2 ≤ (decoderune s).2 ∧ (decoderune s).2 ≤ s.length ∧
        appendRune (decoderune s).1 = s.take (decoderune s).2 ∧
        ValidRune (decoderune s).1 ∧ 0x80 ≤ (decoderune s).1) := by
  unfold decoderune
  simp only [t2, t3, t4, t5, locb, hicb, mask2, mask3, mask4, maskx, rune1Max, rune2Max,
    rune3Max, MaxRune, surrogateMin, surrogateMax, dec2, dec3, dec4]
  split
  · left; rfl
  rename_i s0 rest
  split
  · rename_i h0
    split
    · rename_i s1 t
      split
      · rename_i h1
        split
        · rename_i hr
          right
          simp only [List.length_cons, List.take_succ_cons, List.take_zero, ValidRune,
            appendRune_eq]
          refine ⟨by omega, by omega, ?_, by omega, by omega⟩
          rw [if_neg (by omega), if_pos (by omega)]
          congr 1; · omega
          congr 1; omega
        · left; rfl
      · left; rfl
    · left; rfl
  split
  · rename_i h0 h0'
    split
    · rename_i s1 s2 t
      split
      · rename_i h1
        split
        · rename_i hr
          right
          simp only [List.length_cons, List.take_succ_cons, List.take_zero, ValidRune,
            appendRune_eq]
          refine ⟨by omega, by omega, ?_, by omega, by omega⟩
          rw [if_neg (by omega), if_neg (by omega), if_neg (by omega), if_pos (by omega)]
          congr 1; · omega
          congr 1; · omega
          congr 1; omega
        · left; rfl
      · left; rfl
    · left; rfl
  split
  · rename_i h0 h0' h0''
    split
    · rename_i s1 s2 s3 t
      split
      · rename_i h1
        split
        · rename_i hr
          right
          simp only [List.length_cons, List.take_succ_cons, List.take_zero, ValidRune,
            appendRune_eq]
          refine ⟨by omega, by omega, ?_, by omega, by omega⟩
          rw [if_neg (by omega), if_neg (by omega), if_neg (by omega), if_neg (by omega)]
          congr 1; · omega
          congr 1; · omega
          congr 1; · omega
          congr 1; omega
        · left; rfl
      · left; rfl
    · left; rfl
  · left; rfl

/-- Decoding undoes encoding: on the encoding of a scalar value followed by
anything, the range loop reads that value back and advances past exactly its
encoding. -/
theorem rangeStep_appendRune (r : Nat) (rest : GoString) (hr : ValidRune r) :
    rangeStep (appendRune r ++ rest) = (r, (appendRune r).length) := by
  obtain ⟨h1, h2⟩ := hr
  rw [appendRune_eq]
  by_cases c1 : r ≤ 0x7F
  · rw [if_pos c1]
    simp only [rangeStep, RuneSelf, List.cons_append, List.nil_append, List.length_cons,
      List.length_nil]
    rw [if_pos (by omega)]
  rw [if_neg c1]
  by_cases c2 : r ≤ 0x7FF
  · rw [if_pos c2]
    simp only [rangeStep, decoderune, RuneSelf, List.cons_append, List.nil_append,
      List.length_cons, List.length_nil, t2, t3, locb, hicb, mask2, maskx, rune1Max, dec2]
    rw [if_neg (by omega), if_pos (by omega), if_pos (by omega), if_pos (by omega)]
    congr 1; omega
  rw [if_neg c2, if_neg (by omega)]
  by_cases c3 : r ≤ 0xFFFF
  · rw [if_pos c3]
    simp only [rangeStep, decoderune, RuneSelf, List.cons_append, List.nil_append,
      List.length_cons, List.length_nil, t2, t3, t4, locb, hicb, mask3, maskx, rune2Max,
      surrogateMin, surrogateMax, dec3]
    rw [if_neg (by omega), if_neg (by omega), if_pos (by omega), if_pos (by omega),
      if_pos (by omega)]
    congr 1; omega
  · rw [if_neg c3]
    simp only [rangeStep, decoderune, RuneSelf, List.cons_append, List.nil_append,
      List.length_cons, List.length_nil, t2, t3, t4, t5, locb, hicb, mask4, maskx, rune3Max,
      MaxRune, dec4]
    rw [if_neg (by omega), if_neg (by omega), if_neg (by omega), if_pos (by omega),
      if_pos (by omega), if_pos (by omega)]
    congr 1; omega

theorem appendRune_length (r : Nat) : 1 ≤ (appendRune r).length ∧ (appendRune r).length ≤ 4 := by
  rw [appendRune_eq]
  split_ifs <;> simp

/-- What one iteration of the range loop reads from a non-empty string: its
width is between 1 and the length of the string, the rune is a scalar value,
and either the lead byte is undecodable (and replaced by `RuneError`) or the
rune's encoding is exactly the bytes consumed. -/
theorem rangeStep_spec (c : Nat) (t : GoString) :
    1 ≤ (rangeStep (c :: t)).2 ∧ (rangeStep (c :: t)).2 ≤ (c :: t).length ∧
      ValidRune (rangeStep (c :: t)).1 ∧
      ((RuneSelf ≤ c ∧ rangeStep (c :: t) = (RuneError, 1)) ∨
        (¬ (RuneSelf ≤ c ∧ (rangeStep (c :: t)).2 = 1) ∧
          appendRune (rangeStep (c :: t)).1 = (c :: t).take (rangeStep (c :: t)).2)) := by
  unfold rangeStep
  by_cases hc : c < RuneSelf
  · simp only [hc, if_true]
    simp only [RuneSelf] at hc
    refine ⟨le_refl _, by simp, ⟨by omega, by omega⟩, Or.inr ⟨?_, ?_⟩⟩
    · simp only [RuneSelf]; omega
    · rw [appendRune_eq, if_pos (by omega)]; simp
  · simp only [hc, if_false]
    rcases decoderune_spec (c :: t) with h | ⟨h2, hl, ha, hv, _⟩
    · rw [h]
      refine ⟨le_refl _, by simp, ⟨by simp [RuneError], by simp [RuneError]⟩,
        Or.inl ⟨by omega, rfl⟩⟩
    · exact ⟨by omega, hl, hv, Or.inr ⟨by omega, ha⟩⟩


/-! ## The loops over a string -/

theorem rangeRunes_nil (n : Nat) : rangeRunes n [] = [] := by
  cases n <;> rfl

theorem rangeRunes_cons (n c : Nat) (t : GoString) :
    rangeRunes (n + 1) (c :: t)
      = (rangeStep (c :: t)).1 :: rangeRunes n ((c :: t).drop (rangeStep (c :: t)).2) := rfl

theorem cleanLoop_nil (n : Nat) (buf : GoString) : cleanLoop n [] buf = buf := by
  cases n <;> rfl

theorem cleanLoop_cons (n c : Nat) (t buf : GoString) :
    cleanLoop (n + 1) (c :: t) buf
      = cleanLoop n ((c :: t).drop (rangeStep (c :: t)).2)
          (if keepRune (rangeStep (c :: t)).1 then WriteRune buf (rangeStep (c :: t)).1
            else buf) := rfl

theorem invalidLoop_nil (n : Nat) : invalidLoop n [] = 0 := by
  cases n <;> rfl

theorem invalidLoop_cons (n c : Nat) (t : GoString) :
    invalidLoop (n + 1) (c :: t)
      = (if RuneSelf ≤ c ∧ (rangeStep (c :: t)).2 = 1 then 1 else 0)
          + invalidLoop n ((c :: t).drop (rangeStep (c :: t)).2) := rfl

/-- The range loop does not depend on the fuel once there is enough of it. -/
theorem rangeRunes_fuel (n : Nat) : ∀ (m : Nat) (s : GoString),
    s.length ≤ n → s.length ≤ m → rangeRunes n s = rangeRunes m s := by
  induction n with
  | zero =>
    intro m s hn _
    have : s = [] := List.length_eq_zero.mp (by omega)
    subst this
    rw [rangeRunes_nil, rangeRunes_nil]
  | succ n ih =>
    intro m s hn hm
    cases s with
    | nil => rw [rangeRunes_nil, rangeRunes_nil]
    | cons c t =>
      cases m with
      | zero => simp at hm
      | succ m =>
        rw [rangeRunes_cons, rangeRunes_cons]
        obtain ⟨h1, h2, _, _⟩ := rangeStep_spec c t
        have hl : ((c :: t).drop (rangeStep (c :: t)).2).length
            = (c :: t).length - (rangeStep (c :: t)).2 := List.length_drop _ _
        rw [ih m _ (by omega) (by omega)]

theorem invalidLoop_fuel (n : Nat) : ∀ (m : Nat) (s : GoString),
    s.length ≤ n → s.length ≤ m → invalidLoop n s = invalidLoop m s := by
  induction n with
  | zero =>
    intro m s hn _
    have : s = [] := List.length_eq_zero.mp (by omega)
    subst this
    rw [invalidLoop_nil, invalidLoop_nil]
  | succ n ih =>
    intro m s hn hm
    cases s with
    | nil => rw [invalidLoop_nil, invalidLoop_nil]
    | cons c t =>
      cases m with
      | zero => simp at hm
      | succ m =>
        rw [invalidLoop_cons, invalidLoop_cons]
        obtain ⟨h1, h2, _, _⟩ := rangeStep_spec c t
        have hl : ((c :: t).drop (rangeStep (c :: t)).2).length
            = (c :: t).length - (rangeStep (c :: t)).2 := List.length_drop _ _
        rw [ih m _ (by omega) (by omega)]

/-- The buffer at the end of the loop of `cleanXMLContent`: the initial buffer
followed by the encodings of the runes that pass the test. -/
theorem cleanLoop_eq (n : Nat) : ∀ (s buf : GoString),
    cleanLoop n s buf = buf ++ encodeRunes ((rangeRunes n s).filter keepRune) := by
  induction n with
  | zero => intro s buf; simp [cleanLoop, rangeRunes, encodeRunes]
  | succ n ih =>
    intro s buf
    cases s with
    | nil => simp [cleanLoop_nil, rangeRunes_nil, encodeRunes]
    | cons c t =>
      rw [cleanLoop_cons, rangeRunes_cons, ih]
      by_cases hk : keepRune (rangeStep (c :: t)).1 = true
      · simp [hk, WriteRune, encodeRunes, List.filter_cons]
      · simp [hk, List.filter_cons]

theorem rangeRunes_valid (n : Nat) : ∀ (s : GoString), ∀ r ∈ rangeRunes n s, ValidRune r := by
  induction n with
  | zero => intro s r hr; simp [rangeRunes] at hr
  | succ n ih =>
    intro s r hr
    cases s with
    | nil => simp [rangeRunes_nil] at hr
    | cons c t =>
      rw [rangeRunes_cons] at hr
      rcases List.mem_cons.mp hr with h | h
      · rw [h]; exact (rangeStep_spec c t).2.2.1
      · exact ih _ r h

theorem runes_append (r : Nat) (rest : GoString) (hr : ValidRune r) :
    runes (appendRune r ++ rest) = r :: runes rest := by
  have hl := appendRune_length r
  have hstep := rangeStep_appendRune r rest hr
  unfold runes
  cases hs : appendRune r ++ rest with
  | nil =>
    have : (appendRune r ++ rest).length = 0 := by rw [hs]; rfl
    rw [List.length_append] at this
    omega
  | cons c t =>
    rw [List.length_cons, rangeRunes_cons, ← hs, hstep]
    simp only [List.drop_left]
    congr 1
    apply rangeRunes_fuel
    · have : (appendRune r ++ rest).length = t.length + 1 := by rw [hs]; rfl
      rw [List.length_append] at this
      omega
    · exact le_refl _

theorem runes_encodeRunes (l : List Nat) (h : ∀ r ∈ l, ValidRune r) :
    runes (encodeRunes l) = l := by
  induction l with
  | nil => rfl
  | cons r rs ih =>
    rw [encodeRunes, runes_append r _ (h r (List.mem_cons_self _ _)),
      ih (fun x hx => h x (List.mem_cons_of_mem _ hx))]

/-! ## Length, fixed points and idempotence of the sanitizer -/

theorem keepRune_iff (r : Nat) :
    keepRune r = true ↔ (r = 0x09 ∨ r = 0x0A ∨ r = 0x0D ∨ 0x20 ≤ r) := by
  simp [keepRune, or_assoc]

theorem appendRune_RuneError : appendRune RuneError = [0xEF, 0xBF, 0xBD] := by decide

/-- Every iteration adds at most the bytes it consumed, plus two for an
undecodable byte (one byte in, the three bytes of U+FFFD out). -/
theorem cleanLoop_length (n : Nat) : ∀ (s buf : GoString),
    (cleanLoop n s buf).length ≤ buf.length + s.length + 2 * invalidLoop n s := by
  induction n with
  | zero => intro s buf; simp only [cleanLoop]; omega
  | succ n ih =>
    intro s buf
    cases s with
    | nil => simp [cleanLoop_nil]
    | cons c t =>
      rw [cleanLoop_cons, invalidLoop_cons]
      refine le_trans (ih _ _) ?_
      obtain ⟨h1, h2, _, h4⟩ := rangeStep_spec c t
      have hl : ((c :: t).drop (rangeStep (c :: t)).2).length
          = (c :: t).length - (rangeStep (c :: t)).2 := List.length_drop _ _
      rcases h4 with ⟨hc, he⟩ | ⟨hc, he⟩
      · rw [he] at hl ⊢
        simp only [hc, and_self, if_true]
        simp only [List.length_cons] at hl ⊢
        have hb : (if keepRune RuneError = true then WriteRune buf RuneError else buf).length
            ≤ buf.length + 3 := by
          split
          · simp [WriteRune, appendRune_RuneError]
          · omega
        omega
      · rw [if_neg hc]
        have hb : (if keepRune (rangeStep (c :: t)).1 = true
              then WriteRune buf (rangeStep (c :: t)).1 else buf).length
            ≤ buf.length + (rangeStep (c :: t)).2 := by
          split
          · rw [WriteRune, List.length_append, he, List.length_take]
            omega
          · omega
        omega

/-- With enough fuel, a string without undecodable bytes all of whose runes
pass the test goes through the loop unchanged. -/
theorem cleanLoop_fixed (n : Nat) : ∀ (s buf : GoString), s.length ≤ n →
    invalidLoop n s = 0 → (∀ r ∈ rangeRunes n s, keepRune r = true) →
    cleanLoop n s buf = buf ++ s := by
  induction n with
  | zero =>
    intro s buf hn _ _
    have : s = [] := List.length_eq_zero.mp (by omega)
    subst this
    simp [cleanLoop]
  | succ n ih =>
    intro s buf hn hv hk
    cases s with
    | nil => simp [cleanLoop_nil]
    | cons c t =>
      rw [invalidLoop_cons] at hv
      rw [rangeRunes_cons] at hk
      rw [cleanLoop_cons]
      obtain ⟨h1, h2, _, h4⟩ := rangeStep_spec c t
      have hl : ((c :: t).drop (rangeStep (c :: t)).2).length
          = (c :: t).length - (rangeStep (c :: t)).2 := List.length_drop _ _
      rcases h4 with ⟨hc, he⟩ | ⟨hc, he⟩
      · rw [he] at hv
        simp only [hc, and_self, if_true] at hv
        omega
      · rw [if_neg hc] at hv
        rw [if_pos (hk _ (List.mem_cons_self _ _))]
        rw [ih _ _ (by omega) (by omega) (fun r hr => hk r (List.mem_cons_of_mem _ hr))]
        rw [WriteRune, he, List.append_assoc, List.take_append_drop]

theorem cleanXMLContent_eq (s : GoString) :
    cleanXMLContent s = encodeRunes ((runes s).filter keepRune) := by
  unfold cleanXMLContent runes
  rw [cleanLoop_eq, List.nil_append]

theorem runes_cleanXMLContent (s : GoString) :
    runes (cleanXMLContent s) = (runes s).filter keepRune := by
  rw [cleanXMLContent_eq]
  apply runes_encodeRunes
  intro r hr
  exact rangeRunes_valid _ _ r (List.mem_of_mem_filter hr)

/-! ## The model at work -/

theorem cleanXMLContent_eval_mixed :
    cleanXMLContent [0x41, 0x00, 0x09, 0x1F, 0xC3, 0xA9] = [0x41, 0x09, 0xC3, 0xA9] := by
  decide
theorem cleanXMLContent_eval_invalid : cleanXMLContent [0xFF] = [0xEF, 0xBF, 0xBD] := by decide
theorem runes_eval : runes [0xFF, 0xE4, 0xB8, 0xAD] = [0xFFFD, 0x4E2D] := by decide
theorem lit_eval_ascii :
    lit "obaby@mars" = [111, 98, 97, 98, 121, 64, 109, 97, 114, 115] := by decide
theorem lit_eval_cjk : lit "于淼" = [0xE4, 0xBA, 0x8E, 0xE6, 0xB7, 0xBC] := by decide
theorem Date_eval_epoch2000 : (Date 2000 1 1 0 0 0 0 0).unixNano = 946684800000000000 := by decide
theorem Format_eval_2000 : (Date 2000 1 1 0 0 0 0 0).Format = lit "2000-01-01" := by decide
theorem Format_eval_leap : (Time.mk 1709164800000000000 0).Format = lit "2024-02-29" := by decide
theorem Format_eval_offset :
    (Time.mk 1709164800000000000 (-3600)).Format = lit "2024-02-28" := by decide
theorem Format_eval_before_epoch : (Time.mk (-1) 0).Format = lit "1969-12-31" := by decide
theorem Format_eval_local : (Date 2000 1 1 0 0 0 0 28800).Format = lit "2000-01-01" := by decide

theorem urlParse_eval_https : urlParse (lit "https://blog.example.com/feed")
    = .ok { Scheme := lit "https", Host := lit "blog.example.com", Path := lit "/feed" } := by
  decide
theorem urlParse_eval_not_a_url :
    urlParse (lit "not a url") = .ok { Path := lit "not a url" } := by decide
theorem urlParse_eval_full : urlParse (lit "HTTP://User:pw@Example.com:80/a%20b?q=1#frag")
    = .ok { Scheme := lit "http", User := some (lit "User", some (lit "pw")),
            Host := lit "Example.com:80", Path := lit "/a b", RawQuery := lit "q=1",
            Fragment := lit "frag" } := by
  decide
theorem urlParse_eval_mailto :
    urlParse (lit "mailto:a@b.c") = .ok { Scheme := lit "mailto", Opaque := lit "a@b.c" } := by
  decide
theorem urlParse_eval_ipv6 :
    (urlParse (lit "http://[::1]:8080/")).map URL.Hostname = .ok (lit "::1") := by decide
theorem urlParse_eval_missing_scheme :
    urlParse (lit ":foo") = .error (lit "missing protocol scheme") := by decide
theorem urlParse_eval_host_space :
    urlParse (lit "http://a b.com/") = .error (lit "invalid character in host name") := by
  decide
theorem urlParse_eval_bad_port :
    urlParse (lit "http://x.com:port/") = .error (lit "invalid port after host") := by
  decide
theorem urlParse_eval_colon_segment : urlParse (lit "1http://x")
    = .error (lit "first path segment in URL cannot contain colon") := by decide
theorem extractDomain_eval_no_scheme :
    extractDomain urlParse (lit "//example.com/x") = .ok (lit "https://example.com") := by
  decide

/-! ## Sorting -/

theorem sink_perm {α : Type} (less : α → α → Bool) (x : α) (l : List α) :
    (sink less x l).Perm (x :: l) := by
  induction l with
  | nil => exact List.Perm.refl _
  | cons y ys ih =>
    unfold sink
    split
    · exact (List.Perm.cons y ih).trans (List.Perm.swap x y ys)
    · exact List.Perm.refl _

theorem sink_sorted {α : Type} (less : α → α → Bool) (hw : IsStrictWeak less) (x : α)
    (l : List α) (hl : l.Pairwise (fun a b => less a b = false)) :
    (sink less x l).Pairwise (fun a b => less a b = false) := by
  obtain ⟨hirr, htr, hneg⟩ := hw
  induction l with
  | nil => simp [sink]
  | cons y ys ih =>
    obtain ⟨hy, hys⟩ := List.pairwise_cons.mp hl
    unfold sink
    split
    · rename_i hxy
      refine List.pairwise_cons.mpr ⟨?_, ih hys⟩
      intro z hz
      rcases List.mem_cons.mp ((sink_perm less x ys).subset hz) with h | h
      · subst h
        cases hyz : less y z with
        | false => rfl
        | true =>
          have := htr z y z hxy hyz
          rw [hirr z] at this
          exact absurd this (by simp)
      · exact hy z h
    · rename_i hxy
      have hxy' : less x y = false := by simpa using hxy
      refine List.pairwise_cons.mpr ⟨?_, hl⟩
      intro z hz
      rcases List.mem_cons.mp hz with h | h
      · subst h; exact hxy'
      · exact hneg x y z hxy' (hy z h)

theorem insertionFold_perm {α : Type} (less : α → α → Bool) (l : List α) :
    ∀ acc : List α, (l.foldl (fun sortedRev x => sink less x sortedRev) acc).Perm (l ++ acc) := by
  induction l with
  | nil => intro acc; exact List.Perm.refl _
  | cons x xs ih =>
    intro acc
    rw [List.foldl_cons]
    refine (ih _).trans ?_
    refine (List.Perm.append_left xs (sink_perm less x acc)).trans ?_
    exact List.perm_middle

theorem insertionFold_sorted {α : Type} (less : α → α → Bool) (hw : IsStrictWeak less)
    (l : List α) : ∀ acc : List α, acc.Pairwise (fun a b => less a b = false) →
    (l.foldl (fun sortedRev x => sink less x sortedRev) acc).Pairwise
      (fun a b => less a b = false) := by
  induction l with
  | nil => intro acc h; exact h
  | cons x xs ih =>
    intro acc h
    rw [List.foldl_cons]
    exact ih _ (sink_sorted less hw x acc h)

theorem insertionSort_perm {α : Type} (less : α → α → Bool) (l : List α) :
    (insertionSort less l).Perm l := by
  unfold insertionSort
  refine (List.reverse_perm _).trans ?_
  simpa using insertionFold_perm less l []

theorem insertionSort_sorted {α : Type} (less : α → α → Bool) (hw : IsStrictWeak less)
    (l : List α) : (insertionSort less l).Pairwise (fun a b => less b a = false) := by
  unfold insertionSort
  rw [List.pairwise_reverse]
  exact insertionFold_sorted less hw l [] List.Pairwise.nil

/-- Insertion sort does what `sort.Slice` promises. -/
theorem insertionSort_contract : SortContract insertionSort :=
  ⟨fun less l => insertionSort_perm less l, fun less l hw => insertionSort_sorted less hw l⟩

/-- The comparison of `fetchRSS` is a transitive ordering. -/
theorem lessByDateTime_strictWeak : IsStrictWeak lessByDateTime := by
  refine ⟨?_, ?_, ?_⟩
  · intro a; simp [lessByDateTime, Time.After]
  · intro a b c; simp only [lessByDateTime, Time.After, decide_eq_true_eq]; omega
  · intro a b c; simp only [lessByDateTime, Time.After, decide_eq_false_iff_not]; omega

/-! ## The retry loops -/

/-- The first success of a sequence of attempts is unique. -/
theorem firstSuccess_unique {α : Type} (f : Nat → Except GoError α) (k k' : Nat) (a a' : α)
    (hk : ∀ j, j < k → ∃ e, f j = .error e) (ha : f k = .ok a)
    (hk' : ∀ j, j < k' → ∃ e, f j = .error e) (ha' : f k' = .ok a') : k = k' ∧ a = a' := by
  have h1 : ¬ k < k' := by
    intro h
    obtain ⟨e, he⟩ := hk' k h
    rw [ha] at he
    exact Except.noConfusion he
  have h2 : ¬ k' < k := by
    intro h
    obtain ⟨e, he⟩ := hk k' h
    rw [ha'] at he
    exact Except.noConfusion he
  have hkk : k = k' := by omega
  subst hkk
  rw [ha] at ha'
  exact ⟨rfl, Except.ok.inj ha'⟩

/-- The two ways the fetch stage can end: an attempt `k` succeeds after `k`
failures, or all `maxRetries` attempts fail. -/
theorem fetchStage_cases (get : Nat → Except GoError GoString) (feedURL : GoString) :
    (∃ k body, k < maxRetries ∧ (∀ j, j < k → ∃ e, get j = .error e) ∧ get k = .ok body ∧
        (fetchStage get feedURL).fetchErr = none ∧
        (fetchStage get feedURL).bodyString = body ∧
        (fetchStage get feedURL).attempts = k + 1 ∧
        (fetchStage get feedURL).log.length = k ∧
        (fetchStage get feedURL).sleeps = k) ∨
      ((∀ j, j < maxRetries → ∃ e, get j = .error e) ∧
        (fetchStage get feedURL).fetchErr.isSome = true ∧
        (fetchStage get feedURL).attempts = maxRetries ∧
        (fetchStage get feedURL).log.length = maxRetries + 1 ∧
        (fetchStage get feedURL).sleeps = maxRetries) := by
  rcases h0 : get 0 with e0 | b0
  · rcases h1 : get 1 with e1 | b1
    · rcases h2 : get 2 with e2 | b2
      · right
        refine ⟨?_, ?_⟩
        · intro j hj
          simp only [maxRetries] at hj
          interval_cases j
          · exact ⟨_, h0⟩
          · exact ⟨_, h1⟩
          · exact ⟨_, h2⟩
        · simp [fetchStage, fetchLoop, maxRetries, h0, h1, h2, logError]
      · left
        refine ⟨2, b2, by simp [maxRetries], ?_, h2, ?_⟩
        · intro j hj
          interval_cases j
          · exact ⟨_, h0⟩
          · exact ⟨_, h1⟩
        · simp [fetchStage, fetchLoop, maxRetries, h0, h1, h2, logError]
    · left
      refine ⟨1, b1, by simp [maxRetries], ?_, h1, ?_⟩
      · intro j hj
        interval_cases j
        exact ⟨_, h0⟩
      · simp [fetchStage, fetchLoop, maxRetries, h0, h1, logError]
  · left
    refine ⟨0, b0, by simp [maxRetries], ?_, h0, ?_⟩
    · intro j hj; omega
    · simp [fetchStage, fetchLoop, maxRetries, h0]

/-- The two ways the parse stage can end. -/
theorem parseStage_cases (parseString : Nat → Except GoError Feed) (feedURL : GoString)
    (log : List GoString) :
    (∃ k feed, k < maxRetries ∧ (∀ j, j < k → ∃ e, parseString j = .error e) ∧
        parseString k = .ok feed ∧
        (parseStage parseString feedURL log).parseErr = none ∧
        (parseStage parseString feedURL log).feed = some feed ∧
        (parseStage parseString feedURL log).attempts = k + 1 ∧
        (parseStage parseString feedURL log).log.length = log.length + k) ∨
      ((∀ j, j < maxRetries → ∃ e, parseString j = .error e) ∧
        (parseStage parseString feedURL log).parseErr.isSome = true ∧
        (parseStage parseString feedURL log).attempts = maxRetries ∧
        (parseStage parseString feedURL log).log.length = log.length + maxRetries + 1) := by
  rcases h0 : parseString 0 with e0 | b0
  · rcases h1 : parseString 1 with e1 | b1
    · rcases h2 : parseString 2 with e2 | b2
      · right
        refine ⟨?_, ?_⟩
        · intro j hj
          simp only [maxRetries] at hj
          interval_cases j
          · exact ⟨_, h0⟩
          · exact ⟨_, h1⟩
          · exact ⟨_, h2⟩
        · simp [parseStage, parseLoop, maxRetries, h0, h1, h2, logError]
      · left
        refine ⟨2, b2, by simp [maxRetries], ?_, h2, ?_⟩
        · intro j hj
          interval_cases j
          · exact ⟨_, h0⟩
          · exact ⟨_, h1⟩
        · simp [parseStage, parseLoop, maxRetries, h0, h1, h2, logError]
    · left
      refine ⟨1, b1, by simp [maxRetries], ?_, h1, ?_⟩
      · intro j hj
        interval_cases j
        exact ⟨_, h0⟩
      · simp [parseStage, parseLoop, maxRetries, h0, h1, logError]
  · left
    refine ⟨0, b0, by simp [maxRetries], ?_, h0, ?_⟩
    · intro j hj; omega
    · simp [parseStage, parseLoop, maxRetries, h0]

/-- The article of a goroutine, when there is one: its fetch and its parse
succeed, the feed has a first item, and the article is built from it. -/
theorem goroutine_article_some (W : World) (avatars : GoMap) (pos : Nat) (feedURL : GoString)
    (a : Article) (h : (goroutine W avatars pos feedURL).article = some a) :
    ∃ body feed item rest, FetchSucceeds W pos feedURL body ∧ ParseSucceeds W pos body feed ∧
      feed.Items = item :: rest ∧ a = buildArticle W avatars pos feed item := by
  unfold goroutine at h
  rcases fetchStage_cases (fun i => W.Get pos i feedURL) feedURL with
    ⟨k, body, hk, hf, hok, he, hb, _, _, _⟩ | ⟨_, he, _⟩
  · simp only [he, hb] at h
    rcases parseStage_cases (fun i => W.ParseString pos i (cleanXMLContent body)) feedURL
        (fetchStage (fun i => W.Get pos i feedURL) feedURL).log with
      ⟨k', feed, hk', hf', hok', hpe, hpf, _, _⟩ | ⟨_, hpe, _⟩
    · simp only [hpe, hpf] at h
      cases hi : feed.Items with
      | nil => simp [hi] at h
      | cons item rest =>
        simp only [hi, UnitResult.mk.injEq, Option.some.injEq] at h
        exact ⟨body, feed, item, rest, ⟨k, hk, hf, hok⟩, ⟨k', hk', hf', hok'⟩, hi, h.symm⟩
    · cases hp : (parseStage (fun i => W.ParseString pos i (cleanXMLContent body)) feedURL
          (fetchStage (fun i => W.Get pos i feedURL) feedURL).log).parseErr with
      | none => rw [hp] at hpe; simp at hpe
      | some e => simp [hp] at h
  · cases hp : (fetchStage (fun i => W.Get pos i feedURL) feedURL).fetchErr with
    | none => rw [hp] at he; simp at he
    | some e => simp [hp] at h

/-- A goroutine whose fetch and parse succeed on a feed with a first item
appends the article built from that item. -/
theorem goroutine_article_of_success (W : World) (avatars : GoMap) (pos : Nat)
    (feedURL body : GoString) (feed : Feed) (item : Item) (rest : List Item)
    (hf : FetchSucceeds W pos feedURL body) (hp : ParseSucceeds W pos body feed)
    (hi : feed.Items = item :: rest) :
    (goroutine W avatars pos feedURL).article = some (buildArticle W avatars pos feed item) := by
  obtain ⟨k, hk, hfail, hok⟩ := hf
  obtain ⟨k', hk', hfail', hok'⟩ := hp
  unfold goroutine
  rcases fetchStage_cases (fun i => W.Get pos i feedURL) feedURL with
    ⟨k1, body1, _, hf1, hok1, he, hb, _, _, _⟩ | ⟨hall, _⟩
  · obtain ⟨_, hbody⟩ := firstSuccess_unique (fun i => W.Get pos i feedURL) k k1 body body1
      hfail hok hf1 hok1
    subst hbody
    simp only [he, hb]
    rcases parseStage_cases (fun i => W.ParseString pos i (cleanXMLContent body)) feedURL
        (fetchStage (fun i => W.Get pos i feedURL) feedURL).log with
      ⟨k2, feed2, _, hf2, hok2, hpe, hpf, _, _⟩ | ⟨hall, _⟩
    · obtain ⟨_, hfeed⟩ := firstSuccess_unique
        (fun i => W.ParseString pos i (cleanXMLContent body)) k' k2 feed feed2
        hfail' hok' hf2 hok2
      subst hfeed
      simp only [hpe, hpf, hi]
    · obtain ⟨e, he'⟩ := hall k' hk'
      rw [hok'] at he'
      exact Except.noConfusion he'
  · obtain ⟨e, he'⟩ := hall k hk
    rw [hok] at he'
    exact Except.noConfusion he'

/-! ## Host names -/

theorem cutByte_append (sep : Nat) (a b : GoString) (h : sep ∉ a) :
    cutByte sep (a ++ sep :: b) = some (a, b) := by
  induction a with
  | nil => simp [cutByte]
  | cons c cs ih =>
    have hc : c ≠ sep := fun e => h (e ▸ List.mem_cons_self _ _)
    have hcs : sep ∉ cs := fun m => h (List.mem_cons_of_mem _ m)
    simp [cutByte, hc, ih hcs]

theorem splitLastByte_append (sep : Nat) (a b : GoString) (h : sep ∉ b) :
    splitLastByte sep (a ++ sep :: b) = some (a, sep :: b) := by
  unfold splitLastByte
  have hr : (a ++ sep :: b).reverse = b.reverse ++ sep :: a.reverse := by simp
  rw [hr, cutByte_append sep b.reverse a.reverse (by simpa using h)]
  simp

/-- A port made of digits is cut off the host by `splitHostPort`. -/
theorem splitHostPort_port (host port : GoString) (hp : port.all isDigit = true)
    (hb : ¬ (host.head? = some (ch '[') ∧ host.getLast? = some (ch ']'))) :
    splitHostPort (host ++ ch ':' :: port) = host := by
  have hc : ch ':' ∉ port := by
    intro hm
    have := List.all_eq_true.mp hp _ hm
    revert this
    decide
  unfold splitHostPort
  rw [splitLastByte_append _ _ _ hc]
  have hv : validOptionalPort (ch ':' :: port) = true := by
    simp [validOptionalPort, hp]
  simp only [hv, if_true]
  rw [if_neg hb]

/-! ## The alias table -/

theorem nameMapping_eq (title : GoString) :
    nameMapping title =
      if title = lit "Homepage on Yihui Xie | 谢益辉" then some (lit "谢益辉")
      else if title = lit "Homepage on Miao Yu | 于淼" then some (lit "于淼")
      else if title = lit "青山小站 | 一个在帝都搬砖的新时代农民工" then some (lit "青山小站")
      else if title = lit "obaby@mars" then some (lit "obaby")
      else none := rfl

/-! ## Aggregation -/

theorem appended_perm (W : World) (feeds : List GoString) (avatars : GoMap)
    (sched sched2 : List Nat) (h : sched.Perm sched2) :
    (appended W sched feeds avatars).Perm (appended W sched2 feeds avatars) :=
  List.Perm.filterMap _ h

theorem goroutine_isSome_iff (W : World) (avatars : GoMap) (pos : Nat) (feedURL : GoString) :
    (goroutine W avatars pos feedURL).article.isSome = true ↔
      ∃ body feed, FetchSucceeds W pos feedURL body ∧ ParseSucceeds W pos body feed ∧
        feed.Items ≠ [] := by
  constructor
  · intro h
    obtain ⟨a, ha⟩ := Option.isSome_iff_exists.mp h
    obtain ⟨body, feed, item, rest, hf, hp, hi, _⟩ :=
      goroutine_article_some W avatars pos feedURL a ha
    exact ⟨body, feed, hf, hp, by rw [hi]; simp⟩
  · rintro ⟨body, feed, hf, hp, hi⟩
    cases hitems : feed.Items with
    | nil => exact absurd hitems hi
    | cons item rest =>
      rw [goroutine_article_of_success W avatars pos feedURL body feed item rest hf hp hitems]
      rfl

theorem length_filterMap_eq_filter {α β : Type} (f : α → Option β) (l : List α) :
    (l.filterMap f).length = (l.filter (fun x => (f x).isSome)).length := by
  induction l with
  | nil => rfl
  | cons x xs ih =>
    cases h : f x with
    | none => simp [List.filterMap_cons, List.filter_cons, h, ih]
    | some b => simp [List.filterMap_cons, List.filter_cons, h, ih]

/-- Two arrangements of the same articles that are both in non-increasing
order of time are written as the same document when any two of the articles
that have the same time have the same JSON object. -/
theorem sorted_jsonObject_unique (l1 l2 : List Article) (hp : l1.Perm l2)
    (h1 : l1.Pairwise (fun a b => lessByDateTime b a = false))
    (h2 : l2.Pairwise (fun a b => lessByDateTime b a = false))
    (hties : ∀ a ∈ l1, ∀ b ∈ l1, a.DateTime.unixNano = b.DateTime.unixNano →
      jsonObject a = jsonObject b) :
    l1.map jsonObject = l2.map jsonObject := by
  have keyed : ∀ l : List Article, l.Pairwise (fun a b => lessByDateTime b a = false) →
      (∀ a ∈ l, ∀ b ∈ l, a.DateTime.unixNano = b.DateTime.unixNano →
        jsonObject a = jsonObject b) →
      (l.map (fun a => (a.DateTime.unixNano, jsonObject a))).Pairwise
        (fun x y => y.1 < x.1 ∨ x = y) := by
    intro l hs ht
    rw [List.pairwise_map]
    refine List.Pairwise.imp_of_mem ?_ hs
    intro a b ha hb hab
    simp only [lessByDateTime, Time.After, decide_eq_false_iff_not] at hab
    by_cases hlt : b.DateTime.unixNano < a.DateTime.unixNano
    · exact Or.inl hlt
    · right
      have heq : a.DateTime.unixNano = b.DateTime.unixNano := by omega
      rw [heq, ht a ha b hb heq]
  have hties2 : ∀ a ∈ l2, ∀ b ∈ l2, a.DateTime.unixNano = b.DateTime.unixNano →
      jsonObject a = jsonObject b :=
    fun a ha b hb => hties a (hp.symm.subset ha) b (hp.symm.subset hb)
  have s1 := keyed l1 h1 hties
  have s2 := keyed l2 h2 hties2
  haveI : IsAntisymm (Int × JSONObject) (fun x y => y.1 < x.1 ∨ x = y) :=
    ⟨fun x y hxy hyx => by
      rcases hxy with h | h
      · rcases hyx with h' | h'
        · omega
        · exact h'.symm
      · exact h⟩
  have hm := List.eq_of_perm_of_sorted (List.Perm.map _ hp) s1 s2
  have := congrArg (List.map Prod.snd) hm
  simpa [List.map_map, Function.comp] using this

theorem publishedTime_of_stamped (now now2 : Time) (item : Item)
    (h : item.PublishedParsed ≠ none ∨ item.UpdatedParsed ≠ none) :
    publishedTime now item = publishedTime now2 item := by
  unfold publishedTime
  cases hp : item.PublishedParsed with
  | some t => rfl
  | none =>
    cases hu : item.UpdatedParsed with
    | some t => rfl
    | none => rcases h with h | h <;> contradiction

/-- Two worlds in which a feed gets the same payload and the same parse of it
give its goroutine the same article, whatever their clocks, when the first item
it reads carries a time. -/
theorem goroutine_article_clock (W1 W2 : World) (avatars : GoMap) (pos : Nat)
    (feedURL : GoString)
    (hF : ∀ body, FetchSucceeds W1 pos feedURL body ↔ FetchSucceeds W2 pos feedURL body)
    (hPs : ∀ body feed, FetchSucceeds W1 pos feedURL body →
      (ParseSucceeds W1 pos body feed ↔ ParseSucceeds W2 pos body feed))
    (hU : W1.urlParse = W2.urlParse)
    (hstamp : ∀ body feed item rest, FetchSucceeds W1 pos feedURL body →
      ParseSucceeds W1 pos body feed → feed.Items = item :: rest →
      item.PublishedParsed ≠ none ∨ item.UpdatedParsed ≠ none) :
    (goroutine W1 avatars pos feedURL).article = (goroutine W2 avatars pos feedURL).article := by
  have hb : ∀ feed item, (item.PublishedParsed ≠ none ∨ item.UpdatedParsed ≠ none) →
      buildArticle W1 avatars pos feed item = buildArticle W2 avatars pos feed item := by
    intro feed item hs
    unfold buildArticle
    rw [hU, publishedTime_of_stamped (W1.Now pos) (W2.Now pos) item hs]
  cases h1 : (goroutine W1 avatars pos feedURL).article with
  | none =>
    cases h2 : (goroutine W2 avatars pos feedURL).article with
    | none => rfl
    | some a =>
      obtain ⟨body, feed, item, rest, hf, hp, hi, _⟩ :=
        goroutine_article_some W2 avatars pos feedURL a h2
      have hf1 := (hF body).mpr hf
      rw [goroutine_article_of_success W1 avatars pos feedURL body feed item rest
        hf1 ((hPs body feed hf1).mpr hp) hi] at h1
      exact Option.noConfusion h1
  | some a =>
    obtain ⟨body, feed, item, rest, hf, hp, hi, ha⟩ :=
      goroutine_article_some W1 avatars pos feedURL a h1
    rw [goroutine_article_of_success W2 avatars pos feedURL body feed item rest
      ((hF body).mp hf) ((hPs body feed hf).mp hp) hi, ha,
      hb feed item (hstamp body feed item rest hf hp hi)]

/-! ## The sanitizer -/

/-- C7: `cleanXMLContent` keeps exactly the characters of its input that are
tab, newline, carriage return or have a code point of at least 0x20, in their
order and with nothing added: the characters of the output are the filtered
characters of the input, the output is the concatenation of their encodings,
no character of the output below 0x20 is other than tab, LF or CR, and the
loop ends within `len(content)` iterations whatever the input. -/
theorem cleanXMLContent_retains (content : GoString) :
    runes (cleanXMLContent content)
        = (runes content).filter
            (fun r => decide (r = 0x09 ∨ r = 0x0A ∨ r = 0x0D ∨ 0x20 ≤ r)) ∧
      cleanXMLContent content
        = encodeRunes ((runes content).filter
            (fun r => decide (r = 0x09 ∨ r = 0x0A ∨ r = 0x0D ∨ 0x20 ≤ r))) ∧
      (∀ r ∈ runes (cleanXMLContent content), r < 0x20 → r = 0x09 ∨ r = 0x0A ∨ r = 0x0D) ∧
      (∀ n, content.length ≤ n → cleanLoop n content [] = cleanXMLContent content) := by
  have hk : (fun r => decide (r = 0x09 ∨ r = 0x0A ∨ r = 0x0D ∨ 0x20 ≤ r)) = keepRune := by
    funext r
    rw [Bool.eq_iff_iff, keepRune_iff]
    simp
  rw [hk]
  refine ⟨runes_cleanXMLContent content, cleanXMLContent_eq content, ?_, ?_⟩
  · intro r hr hlt
    rw [runes_cleanXMLContent] at hr
    have := (keepRune_iff r).mp (List.mem_filter.mp hr).2
    omega
  · intro n hn
    unfold cleanXMLContent
    rw [cleanLoop_eq, cleanLoop_eq, rangeRunes_fuel n content.length content hn (le_refl _)]

/-- Counterexample to C8 as stated: the single byte 0xFF is not valid UTF-8, the range
loop reads it as U+FFFD, and the three bytes of U+FFFD are written out. -/
theorem cleanXMLContent_length_counterexample :
    ¬ ∀ content : GoString, (∀ b ∈ content, b < 256) →
        (cleanXMLContent content).length ≤ content.length := by
  intro h
  have := h [0xFF] (by decide)
  revert this
  decide

/-- C8, amended: the output of `cleanXMLContent` is at most two bytes longer
than the input for each undecodable byte of the input; on valid UTF-8 it is
never longer than the input. -/
theorem cleanXMLContent_length_le (content : GoString) :
    (cleanXMLContent content).length ≤ content.length + 2 * invalidBytes content ∧
      (ValidString content → (cleanXMLContent content).length ≤ content.length) := by
  have h := cleanLoop_length content.length content []
  simp only [List.length_nil, Nat.zero_add] at h
  refine ⟨h, ?_⟩
  intro hv
  unfold ValidString invalidBytes at hv
  unfold cleanXMLContent
  omega

/-- A valid UTF-8 input with a control character is not lengthened. -/
theorem cleanXMLContent_length_le_witness :
    ValidString (lit "a\x00é\t") ∧
      (cleanXMLContent (lit "a\x00é\t")).length ≤ (lit "a\x00é\t").length :=
  ⟨by decide, (cleanXMLContent_length_le (lit "a\x00é\t")).2 (by decide)⟩

/-- Counterexample to C9 as stated: the single byte 0xFF decodes to U+FFFD, which passes
the filter, yet the output is the three bytes of U+FFFD, not the input. -/
theorem cleanXMLContent_fixed_counterexample :
    ¬ ∀ content : GoString, (∀ b ∈ content, b < 256) →
        (∀ r ∈ runes content, r = 0x09 ∨ r = 0x0A ∨ r = 0x0D ∨ 0x20 ≤ r) →
        cleanXMLContent content = content := by
  intro h
  have := h [0xFF] (by decide) (by decide)
  revert this
  decide

/-- C9, amended: a valid UTF-8 input all of whose characters pass the filter
is returned unchanged; and on every input, valid or not, the output is a fixed
point of `cleanXMLContent`. -/
theorem cleanXMLContent_fixed (content : GoString) :
    (ValidString content →
        (∀ r ∈ runes content, r = 0x09 ∨ r = 0x0A ∨ r = 0x0D ∨ 0x20 ≤ r) →
        cleanXMLContent content = content) ∧
      cleanXMLContent (cleanXMLContent content) = cleanXMLContent content := by
  constructor
  · intro hv hk
    have := cleanLoop_fixed content.length content [] (le_refl _) hv
      (fun r hr => (keepRune_iff r).mpr (hk r hr))
    simpa using this
  · rw [cleanXMLContent_eq (cleanXMLContent content), runes_cleanXMLContent,
      List.filter_filter, cleanXMLContent_eq]
    simp

/-- A valid UTF-8 input that passes the filter is returned unchanged. -/
theorem cleanXMLContent_fixed_witness :
    cleanXMLContent (lit "<a>é\n</a>") = lit "<a>é\n</a>" :=
  (cleanXMLContent_fixed (lit "<a>é\n</a>")).1 (by decide) (by decide)

/-! ## The fetch stage -/

/-- C3: the fetch stage makes at most `maxRetries` (3) GET attempts; when
attempt `k` is the first to succeed it stops there, keeps that body, and has
written one log line for each of the `k` failed attempts and no other; when
all three attempts fail it ends with an error, having written three lines for
the attempts and one for the terminal failure, and the goroutine appends no
article; it ends with an error exactly when all three attempts fail. -/
theorem fetchStage_retry (get : Nat → Except GoError GoString) (feedURL : GoString) :
    (fetchStage get feedURL).attempts ≤ maxRetries ∧
      (∀ k body, k < maxRetries → (∀ j, j < k → ∃ e, get j = .error e) → get k = .ok body →
        (fetchStage get feedURL).fetchErr = none ∧
        (fetchStage get feedURL).bodyString = body ∧
        (fetchStage get feedURL).attempts = k + 1 ∧
        (fetchStage get feedURL).log.length = k) ∧
      ((∀ j, j < maxRetries → ∃ e, get j = .error e) →
        (fetchStage get feedURL).fetchErr.isSome = true ∧
        (fetchStage get feedURL).attempts = maxRetries ∧
        (fetchStage get feedURL).log.length = maxRetries + 1) ∧
      ((fetchStage get feedURL).fetchErr.isSome = true ↔
        ∀ j, j < maxRetries → ∃ e, get j = .error e) ∧
      (∀ (W : World) (avatars : GoMap) (pos : Nat),
        (∀ j, j < maxRetries → ∃ e, W.Get pos j feedURL = .error e) →
        (goroutine W avatars pos feedURL).article = none) := by
  have hcases := fetchStage_cases get feedURL
  refine ⟨?_, ?_, ?_, ?_, ?_⟩
  · rcases hcases with ⟨k, body, hk, _, _, _, _, ha, _, _⟩ | ⟨_, _, ha, _, _⟩
    · omega
    · omega
  · intro k body hk hfail hok
    rcases hcases with ⟨k1, body1, _, hf1, hok1, he, hb, ha, hl, _⟩ | ⟨hall, _⟩
    · obtain ⟨hkk, hbb⟩ := firstSuccess_unique get k k1 body body1 hfail hok hf1 hok1
      subst hkk; subst hbb
      exact ⟨he, hb, ha, hl⟩
    · obtain ⟨e, he⟩ := hall k hk
      rw [hok] at he
      exact Except.noConfusion he
  · intro hall
    rcases hcases with ⟨k, body, hk, _, hok, _⟩ | ⟨_, he, ha, hl, _⟩
    · obtain ⟨e, he⟩ := hall k hk
      rw [hok] at he
      exact Except.noConfusion he
    · exact ⟨he, ha, hl⟩
  · constructor
    · intro hsome
      rcases hcases with ⟨k, body, hk, _, hok, he, _⟩ | ⟨hall, _⟩
      · rw [he] at hsome; simp at hsome
      · exact hall
    · intro hall
      rcases hcases with ⟨k, body, hk, _, hok, _⟩ | ⟨_, he, _⟩
      · obtain ⟨e, he⟩ := hall k hk
        rw [hok] at he
        exact Except.noConfusion he
      · exact he
  · intro W avatars pos hall
    cases ha : (goroutine W avatars pos feedURL).article with
    | none => rfl
    | some a =>
      obtain ⟨body, _, _, _, ⟨k, hk, _, hok⟩, _⟩ := goroutine_article_some W avatars pos feedURL a ha
      obtain ⟨e, he⟩ := hall k hk
      rw [hok] at he
      exact Except.noConfusion he

/-! ## Identity resolution -/

/-- C4: identity resolution is total; the name is the value of the alias table
for the title when the exact title is one of its four keys and the title
itself otherwise; the avatar is the entry of the avatar table for that name
when there is one and it is not empty, and the default URL otherwise; so the
avatar of an article is never empty.  On the title "obaby@mars" with the table
that maps "obaby" to "http://a/x.png" the result is ("obaby",
"http://a/x.png"); on "unknown" with the empty table it is ("unknown", the
default URL). -/
theorem resolve_identity (avatars : GoMap) (title : GoString) :
    (∀ mapped, nameMapping title = some mapped → resolveName title = mapped) ∧
      (nameMapping title = none → resolveName title = title) ∧
      (∀ mapped, nameMapping title = some mapped ↔
        (title, mapped) ∈
          [ (lit "obaby@mars", lit "obaby"),
            (lit "青山小站 | 一个在帝都搬砖的新时代农民工", lit "青山小站"),
            (lit "Homepage on Miao Yu | 于淼", lit "于淼"),
            (lit "Homepage on Yihui Xie | 谢益辉", lit "谢益辉") ]) ∧
      (∀ v, avatars (resolveName title) = some v → v ≠ [] →
        resolveAvatar avatars (resolveName title) = v) ∧
      ((avatars (resolveName title) = none ∨ avatars (resolveName title) = some []) →
        resolveAvatar avatars (resolveName title) = defaultAvatar) ∧
      resolveAvatar avatars (resolveName title) ≠ [] ∧
      (∀ (W : World) (pos : Nat) (feed : Feed) (item : Item), feed.Title = title →
        (buildArticle W avatars pos feed item).Name = resolveName title ∧
        (buildArticle W avatars pos feed item).Avatar
          = resolveAvatar avatars (resolveName title) ∧
        (buildArticle W avatars pos feed item).Avatar ≠ []) ∧
      (resolveName (lit "obaby@mars"),
        resolveAvatar (loadAvatars [{ Name := lit "obaby", Avatar := lit "http://a/x.png" }])
          (resolveName (lit "obaby@mars")))
        = (lit "obaby", lit "http://a/x.png") ∧
      (resolveName (lit "unknown"), resolveAvatar (loadAvatars []) (resolveName (lit "unknown")))
        = (lit "unknown", lit "https://cos.lhasa.icu/LinksAvatar/default.png") := by
  have hne : ∀ (av : GoMap) (n : GoString), resolveAvatar av n ≠ [] := by
    intro av n
    unfold resolveAvatar
    simp only
    split
    · decide
    · assumption
  refine ⟨?_, ?_, ?_, ?_, ?_, hne _ _, ?_, by decide, by decide⟩
  · intro mapped h; simp [resolveName, h]
  · intro h; simp [resolveName, h]
  · intro mapped
    have d1 : lit "obaby@mars" ≠ lit "Homepage on Yihui Xie | 谢益辉" := by decide
    have d2 : lit "obaby@mars" ≠ lit "Homepage on Miao Yu | 于淼" := by decide
    have d3 : lit "obaby@mars" ≠ lit "青山小站 | 一个在帝都搬砖的新时代农民工" := by decide
    have d4 : lit "青山小站 | 一个在帝都搬砖的新时代农民工" ≠ lit "Homepage on Yihui Xie | 谢益辉" := by
      decide
    have d5 : lit "青山小站 | 一个在帝都搬砖的新时代农民工" ≠ lit "Homepage on Miao Yu | 于淼" := by
      decide
    have d6 : lit "Homepage on Miao Yu | 于淼" ≠ lit "Homepage on Yihui Xie | 谢益辉" := by decide
    rw [nameMapping_eq]
    simp only [List.mem_cons, Prod.mk.injEq, List.mem_nil_iff, or_false]
    by_cases h4 : title = lit "Homepage on Yihui Xie | 谢益辉"
    · subst h4
      simp only [if_true, Option.some.injEq, true_and]
      constructor
      · intro h; exact Or.inr (Or.inr (Or.inr h.symm))
      · rintro (⟨h, _⟩ | ⟨h, _⟩ | ⟨h, _⟩ | h)
        · exact absurd h.symm d1
        · exact absurd h.symm d4
        · exact absurd h.symm d6
        · exact h.symm
    rw [if_neg h4]
    by_cases h3 : title = lit "Homepage on Miao Yu | 于淼"
    · subst h3
      simp only [if_true, Option.some.injEq, true_and]
      constructor
      · intro h; exact Or.inr (Or.inr (Or.inl h.symm))
      · rintro (⟨h, _⟩ | ⟨h, _⟩ | h | ⟨h, _⟩)
        · exact absurd h.symm d2
        · exact absurd h.symm d5
        · exact h.symm
        · exact absurd h h4
    rw [if_neg h3]
    by_cases h2 : title = lit "青山小站 | 一个在帝都搬砖的新时代农民工"
    · subst h2
      simp only [if_true, Option.some.injEq, true_and]
      constructor
      · intro h; exact Or.inr (Or.inl h.symm)
      · rintro (⟨h, _⟩ | h | ⟨h, _⟩ | ⟨h, _⟩)
        · exact absurd h.symm d3
        · exact h.symm
        · exact absurd h h3
        · exact absurd h h4
    rw [if_neg h2]
    by_cases h1 : title = lit "obaby@mars"
    · subst h1
      simp only [if_true, Option.some.injEq, true_and]
      constructor
      · intro h; exact Or.inl h.symm
      · rintro (h | ⟨h, _⟩ | ⟨h, _⟩ | ⟨h, _⟩)
        · exact h.symm
        · exact absurd h h2
        · exact absurd h h3
        · exact absurd h h4
    rw [if_neg h1]
    simp [h1, h2, h3, h4]
  · intro v hv hne'
    simp [resolveAvatar, GoMap.index, hv, hne']
  · rintro (h | h) <;> simp [resolveAvatar, GoMap.index, h]
  · intro W pos feed item ht
    subst ht
    exact ⟨rfl, rfl, hne _ _⟩

/-! ## Domain extraction -/

/-- C5: whatever `url.Parse` does, `extractDomain` fails exactly when the URL
does not parse or its host name is empty, and otherwise returns the scheme (or
"https" when the parsed scheme is empty), "://" and the host name; the result
is read from the scheme and the host alone, and a numeric port is not part of
it.  With the parsing of package net/url, "https://blog.example.com/feed"
gives "https://blog.example.com", "ftp://x.example.org" gives itself, "not a
url" gives an error, and user, port, path, query and fragment are dropped. -/
theorem extractDomain_spec (parseURL : GoString → Except GoError URL) (urlStr : GoString) :
    ((∃ err, extractDomain parseURL urlStr = .error err) ↔
        ((∃ err, parseURL urlStr = .error err) ∨
          ∃ u, parseURL urlStr = .ok u ∧ u.Hostname = [])) ∧
      (∀ u, parseURL urlStr = .ok u → u.Hostname ≠ [] →
        extractDomain parseURL urlStr
          = .ok ((if u.Scheme ≠ [] then u.Scheme else lit "https") ++ lit "://" ++ u.Hostname)) ∧
      (∀ u host port, parseURL urlStr = .ok u → u.Host = host ++ ch ':' :: port →
        port.all isDigit = true → host ≠ [] →
        ¬ (host.head? = some (ch '[') ∧ host.getLast? = some (ch ']')) →
        extractDomain parseURL urlStr
          = .ok ((if u.Scheme ≠ [] then u.Scheme else lit "https") ++ lit "://" ++ host)) ∧
      extractDomain urlParse (lit "https://blog.example.com/feed")
        = .ok (lit "https://blog.example.com") ∧
      extractDomain urlParse (lit "ftp://x.example.org") = .ok (lit "ftp://x.example.org") ∧
      extractDomain urlParse (lit "not a url")
        = .error (lit "empty domain from url: not a url") ∧
      extractDomain urlParse (lit "HTTP://User:pw@Example.com:8080/a%20b?q=1#frag")
        = .ok (lit "http://Example.com") := by
  have hmain : ∀ u, parseURL urlStr = .ok u → u.Hostname ≠ [] →
      extractDomain parseURL urlStr
        = .ok ((if u.Scheme ≠ [] then u.Scheme else lit "https") ++ lit "://" ++ u.Hostname) := by
    intro u hu hh
    unfold extractDomain
    rw [hu]
    simp only [hh, if_false]
    by_cases hs : u.Scheme = []
    · simp only [hs, ne_eq, not_true_eq_false, if_false]
      rfl
    · simp only [hs, ne_eq, not_false_eq_true, if_true, List.append_assoc]
  refine ⟨?_, hmain, ?_, by decide, by decide, by decide, by decide⟩
  · constructor
    · rintro ⟨err, h⟩
      unfold extractDomain at h
      cases hp : parseURL urlStr with
      | error e => exact Or.inl ⟨e, rfl⟩
      | ok u =>
        right
        refine ⟨u, rfl, ?_⟩
        rw [hp] at h
        by_contra hh
        simp [hh] at h
    · rintro (⟨err, h⟩ | ⟨u, h, hh⟩)
      · exact ⟨err, by simp [extractDomain, h]⟩
      · exact ⟨lit "empty domain from url: " ++ urlStr, by simp [extractDomain, h, hh]⟩
  · intro u host port hu hhost hp hne hb
    have hH : u.Hostname = host := by
      unfold URL.Hostname
      rw [hhost]
      exact splitHostPort_port host port hp hb
    have := hmain u hu (by rw [hH]; exact hne)
    rw [hH] at this
    exact this

/-! ## The article of a feed -/

/-- C6: when the fetch and the parse of a feed succeed and the feed has at
least one item, the goroutine appends one article, whose title and link are
those of the first item and whose time is the published time of that item if
it has one, else its updated time if it has one, else the wall-clock time of
the goroutine; its date is that time formatted, and no later item has any part
in it. -/
theorem article_from_first_item (W : World) (avatars : GoMap) (pos : Nat)
    (feedURL body : GoString) (feed : Feed) (item : Item) (rest : List Item)
    (hf : FetchSucceeds W pos feedURL body) (hp : ParseSucceeds W pos body feed)
    (hi : feed.Items = item :: rest) :
    ∃ a, (goroutine W avatars pos feedURL).article = some a ∧
      a.Title = item.Title ∧ a.Link = item.Link ∧
      (∀ t, item.PublishedParsed = some t → a.DateTime = t) ∧
      (∀ t, item.PublishedParsed = none → item.UpdatedParsed = some t → a.DateTime = t) ∧
      (item.PublishedParsed = none → item.UpdatedParsed = none → a.DateTime = W.Now pos) ∧
      a.Date = a.DateTime.Format ∧
      (∀ (feed2 : Feed) (rest2 : List Item), feed2.Title = feed.Title → feed2.Link = feed.Link →
        feed2.Items = item :: rest2 → buildArticle W avatars pos feed2 item = a) := by
  refine ⟨buildArticle W avatars pos feed item,
    goroutine_article_of_success W avatars pos feedURL body feed item rest hf hp hi,
    rfl, rfl, ?_, ?_, ?_, rfl, ?_⟩
  · intro t ht; simp [buildArticle, publishedTime, ht]
  · intro t h1 h2; simp [buildArticle, publishedTime, h1, h2]
  · intro h1 h2; simp [buildArticle, publishedTime, h1, h2]
  · intro feed2 rest2 h1 h2 _
    simp [buildArticle, h1, h2]

/-- The article of a feed whose only item has no time is dated with the clock. -/
theorem article_from_first_item_witness :
    ∃ a, (goroutine (sampleWorld (fun _ => none) (Date 2024 5 17 8 30 0 0 28800)) (loadAvatars []) 0
          (lit "https://blog.example.com/feed")).article = some a ∧
      a.Title = lit "post" ∧ a.Link = lit "https://blog.example.com/feed/post" ∧
      a.DateTime = Date 2024 5 17 8 30 0 0 28800 ∧ a.Date = lit "2024-05-17" := by
  obtain ⟨a, h, h1, h2, _, _, h5, h6, _⟩ :=
    article_from_first_item (sampleWorld (fun _ => none) (Date 2024 5 17 8 30 0 0 28800))
      (loadAvatars []) 0 (lit "https://blog.example.com/feed")
      (lit "https://blog.example.com/feed")
      { Title := lit "https://blog.example.com/feed", Link := lit "https://blog.example.com/feed",
        Items := [{ Title := lit "post", Link := lit "https://blog.example.com/feed" ++ lit "/post",
                    PublishedParsed := none, UpdatedParsed := none }] }
      { Title := lit "post", Link := lit "https://blog.example.com/feed" ++ lit "/post",
        PublishedParsed := none, UpdatedParsed := none } []
      ⟨0, by decide, fun j hj => absurd hj (Nat.not_lt_zero j), rfl⟩
      ⟨0, by decide, fun j hj => absurd hj (Nat.not_lt_zero j), by decide⟩
      rfl
  refine ⟨a, h, h1, ?_, ?_, ?_⟩
  · rw [h2]; decide
  · exact h5 rfl rfl
  · rw [h6, h5 rfl rfl]; decide

/-! ## fetchRSS and main -/

/-- C1: whatever the order in which the goroutines finish, `fetchRSS` returns
a rearrangement of what the positions of the feed list contribute, one
position after the other: a position contributes an article exactly when its
fetch succeeds, its parse succeeds and the parsed feed has at least one item,
and then it contributes the single article built from the first item; so there
are as many articles as such positions.  A domain extraction that is skipped
or fails only leaves `DomainName` empty. -/
theorem fetchRSS_one_article_per_success (W : World) (sched : List Nat)
    (feeds : List GoString) (avatars : GoMap) (hsort : SortContract W.sortSlice)
    (hsched : sched.Perm (List.range feeds.length)) :
    ∃ out, fetchRSS W sched feeds avatars = .ok out ∧
      out.Perm ((List.range feeds.length).filterMap (contribution W feeds avatars)) ∧
      out.length
        = ((List.range feeds.length).filter
            (fun pos => (contribution W feeds avatars pos).isSome)).length ∧
      (∀ pos feedURL, feeds[pos]? = some feedURL →
        ((contribution W feeds avatars pos).isSome = true ↔
          ∃ body feed, FetchSucceeds W pos feedURL body ∧ ParseSucceeds W pos body feed ∧
            feed.Items ≠ [])) ∧
      (∀ pos feedURL body feed item rest, feeds[pos]? = some feedURL →
        FetchSucceeds W pos feedURL body → ParseSucceeds W pos body feed →
        feed.Items = item :: rest →
        contribution W feeds avatars pos = some (buildArticle W avatars pos feed item)) ∧
      (∀ pos feed item,
        (feed.Link = [] ∨ ∃ err, extractDomain W.urlParse feed.Link = .error err) →
        (buildArticle W avatars pos feed item).DomainName = []) := by
  have hperm : (W.sortSlice lessByDateTime (appended W sched feeds avatars)).Perm
      ((List.range feeds.length).filterMap (contribution W feeds avatars)) :=
    (hsort.1 _ _).trans (appended_perm W feeds avatars _ _ hsched)
  refine ⟨_, rfl, hperm, ?_, ?_, ?_, ?_⟩
  · rw [hperm.length_eq, length_filterMap_eq_filter]
  · intro pos feedURL hpos
    unfold contribution
    rw [hpos]
    exact goroutine_isSome_iff W avatars pos feedURL
  · intro pos feedURL body feed item rest hpos hf hp hi
    unfold contribution
    rw [hpos]
    exact goroutine_article_of_success W avatars pos feedURL body feed item rest hf hp hi
  · intro pos feed item h
    rcases h with h | ⟨err, h⟩
    · simp [buildArticle, resolveDomain, h]
    · simp [buildArticle, resolveDomain, h]

/-- Two feeds whose goroutines finish in reverse order give two articles. -/
theorem fetchRSS_one_article_per_success_witness :
    ∃ out, fetchRSS (sampleWorld (fun _ => none) (Date 2024 5 17 8 30 0 0 0)) [1, 0]
        [lit "https://a.example.com/feed", lit "https://b.example.com/feed"] (loadAvatars [])
          = .ok out ∧ out.length = 2 := by
  obtain ⟨out, h, _, hl, _⟩ :=
    fetchRSS_one_article_per_success (sampleWorld (fun _ => none) (Date 2024 5 17 8 30 0 0 0))
      [1, 0] [lit "https://a.example.com/feed", lit "https://b.example.com/feed"]
      (loadAvatars []) insertionSort_contract (List.Perm.swap 0 1 [])
  refine ⟨out, h, ?_⟩
  rw [hl]
  decide

/-- C2: `main` hands to the writer the articles returned by `fetchRSS`, which
are the collected articles in non-increasing order of `DateTime`, followed by
the manual entry as last element; when every fetched article is later than the
manual entry (2000-01-01 00:00 local), the whole sequence is in non-increasing
order of `DateTime`. -/
theorem main_order (W : World) (sched : List Nat) (Local : Int) (feeds : List GoString)
    (avatars : GoMap) (hsort : SortContract W.sortSlice) :
    ∃ fetched, fetchRSS W sched feeds avatars = .ok fetched ∧
      fetched.Perm (appended W sched feeds avatars) ∧
      fetched.Pairwise (fun a b => b.DateTime.unixNano ≤ a.DateTime.unixNano) ∧
      main W sched Local (.ok feeds) (.ok avatars) = some (fetched ++ [manual Local]) ∧
      (manual Local).DateTime = Date 2000 1 1 0 0 0 0 Local ∧
      ((∀ a ∈ fetched, (manual Local).DateTime.unixNano < a.DateTime.unixNano) →
        (fetched ++ [manual Local]).Pairwise
          (fun a b => b.DateTime.unixNano ≤ a.DateTime.unixNano)) := by
  have hs : (W.sortSlice lessByDateTime (appended W sched feeds avatars)).Pairwise
      (fun a b => b.DateTime.unixNano ≤ a.DateTime.unixNano) := by
    refine (hsort.2 lessByDateTime _ lessByDateTime_strictWeak).imp ?_
    intro a b h
    simp only [lessByDateTime, Time.After, decide_eq_false_iff_not] at h
    omega
  refine ⟨_, rfl, hsort.1 _ _, hs, rfl, rfl, ?_⟩
  intro hlater
  rw [List.pairwise_append]
  refine ⟨hs, List.pairwise_singleton _ _, ?_⟩
  intro a ha b hb
  rw [List.mem_singleton] at hb
  subst hb
  exact le_of_lt (hlater a ha)

/-- Two feeds, with insertion sort for `sort.Slice`: the manual entry is last. -/
theorem main_order_witness :
    ∃ fetched, main (sampleWorld (fun _ => none) (Date 2024 5 17 8 30 0 0 0)) [1, 0] 28800
        (.ok [lit "https://a.example.com/feed", lit "https://b.example.com/feed"])
        (.ok (loadAvatars [])) = some (fetched ++ [manual 28800]) ∧
      fetched.Pairwise (fun a b => b.DateTime.unixNano ≤ a.DateTime.unixNano) := by
  obtain ⟨fetched, _, _, hs, hm, _⟩ :=
    main_order (sampleWorld (fun _ => none) (Date 2024 5 17 8 30 0 0 0)) [1, 0] 28800
      [lit "https://a.example.com/feed", lit "https://b.example.com/feed"] (loadAvatars [])
      insertionSort_contract
  exact ⟨fetched, hm, hs⟩

/-! ## Two runs on the same input -/

/-- Counterexample to C10 as stated, in two ways.  A feed whose first item has no time is
dated with the clock: the same feed list, payloads and avatars give a
different `date` on 2024-05-17 and on 2024-05-18.  And two articles of equal
time come out in the order in which their goroutines finished (here with the
insertion sort that `sort.Slice` runs on short slices). -/
theorem output_determinism_counterexample :
    (main (sampleWorld (fun _ => none) (Date 2024 5 17 8 30 0 0 0)) [0] 0
          (.ok [lit "https://a.example.com/feed"]) (.ok (loadAvatars []))).map writeJSON
        ≠ (main (sampleWorld (fun _ => none) (Date 2024 5 18 8 30 0 0 0)) [0] 0
            (.ok [lit "https://a.example.com/feed"]) (.ok (loadAvatars []))).map writeJSON ∧
      (main (sampleWorld (fun _ => some (Date 2024 5 1 0 0 0 0 0)) (Date 2024 5 17 8 30 0 0 0))
            [0, 1] 0 (.ok [lit "https://a.example.com/feed", lit "https://b.example.com/feed"])
            (.ok (loadAvatars []))).map writeJSON
        ≠ (main (sampleWorld (fun _ => some (Date 2024 5 1 0 0 0 0 0))
              (Date 2024 5 17 8 30 0 0 0))
            [1, 0] 0 (.ok [lit "https://a.example.com/feed", lit "https://b.example.com/feed"])
            (.ok (loadAvatars []))).map writeJSON := by
  constructor <;> decide!

/-- C10, amended: two runs on the same feed list in which every feed gets the
same payload and the same parse of it, with the same avatars, write the same
output, whatever the clock of each run, the order in which the goroutines
finish, the attempts that fail before a payload arrives and the way
`sort.Slice` arranges equal elements, provided that the first item of every
feed that contributes carries a published or an updated time and that any two
contributed articles of the same time have the same serialized fields. -/
theorem output_determinism (W1 W2 : World) (sched1 sched2 : List Nat) (Local : Int)
    (feeds : List GoString) (avatars : GoMap)
    (hsort1 : SortContract W1.sortSlice) (hsort2 : SortContract W2.sortSlice)
    (hG : ∀ pos feedURL body, feeds[pos]? = some feedURL →
      (FetchSucceeds W1 pos feedURL body ↔ FetchSucceeds W2 pos feedURL body))
    (hP : ∀ pos feedURL body feed, feeds[pos]? = some feedURL →
      FetchSucceeds W1 pos feedURL body →
      (ParseSucceeds W1 pos body feed ↔ ParseSucceeds W2 pos body feed))
    (hU : W1.urlParse = W2.urlParse)
    (h1 : sched1.Perm (List.range feeds.length)) (h2 : sched2.Perm (List.range feeds.length))
    (hstamp : ∀ pos feedURL body feed item rest, feeds[pos]? = some feedURL →
      FetchSucceeds W1 pos feedURL body → ParseSucceeds W1 pos body feed →
      feed.Items = item :: rest →
      item.PublishedParsed ≠ none ∨ item.UpdatedParsed ≠ none)
    (hties : ∀ a ∈ appended W1 (List.range feeds.length) feeds avatars,
      ∀ b ∈ appended W1 (List.range feeds.length) feeds avatars,
      a.DateTime.unixNano = b.DateTime.unixNano → jsonObject a = jsonObject b) :
    (main W1 sched1 Local (.ok feeds) (.ok avatars)).map writeJSON
      = (main W2 sched2 Local (.ok feeds) (.ok avatars)).map writeJSON := by
  have hc : contribution W2 feeds avatars = contribution W1 feeds avatars := by
    funext pos
    unfold contribution
    cases hpos : feeds[pos]? with
    | none => rfl
    | some feedURL =>
      exact (goroutine_article_clock W1 W2 avatars pos feedURL
        (fun body => hG pos feedURL body hpos)
        (fun body feed => hP pos feedURL body feed hpos) hU
        (fun body feed item rest => hstamp pos feedURL body feed item rest hpos)).symm
  have happ : appended W2 sched2 feeds avatars = appended W1 sched2 feeds avatars := by
    unfold appended; rw [hc]
  have p1 := (hsort1.1 lessByDateTime _).trans (appended_perm W1 feeds avatars _ _ h1)
  have p2 := (hsort2.1 lessByDateTime _).trans (appended_perm W1 feeds avatars _ _ h2)
  have hsorted :
      (W1.sortSlice lessByDateTime (appended W1 sched1 feeds avatars)).map jsonObject
        = (W2.sortSlice lessByDateTime (appended W1 sched2 feeds avatars)).map jsonObject := by
    apply sorted_jsonObject_unique
    · exact p1.trans p2.symm
    · exact hsort1.2 _ _ lessByDateTime_strictWeak
    · exact hsort2.2 _ _ lessByDateTime_strictWeak
    · intro a ha b hb
      exact hties a (p1.subset ha) b (p1.subset hb)
  simp only [main, fetchRSS, Option.map_some', writeJSON, List.map_append]
  rw [happ, hsorted]

/-- Two runs a day apart on a list that names one feed twice, the second run
losing the first request to every feed and finishing in another order, write
the same output. -/
theorem output_determinism_witness :
    (main (sampleWorld (fun body => some (Time.mk body.length 0)) (Date 2024 5 17 8 30 0 0 0))
        [0, 1, 2] 0
        (.ok [lit "https://a.example.com/feed", lit "https://a.example.com/feed",
          lit "https://bb.example.com/feed"])
        (.ok (loadAvatars []))).map writeJSON
      = (main (retryWorld (fun body => some (Time.mk body.length 0))
          (Date 2024 5 18 8 30 0 0 0))
        [2, 0, 1] 0
        (.ok [lit "https://a.example.com/feed", lit "https://a.example.com/feed",
          lit "https://bb.example.com/feed"])
        (.ok (loadAvatars []))).map writeJSON :=
  output_determinism
    (sampleWorld (fun body => some (Time.mk body.length 0)) (Date 2024 5 17 8 30 0 0 0))
    (retryWorld (fun body => some (Time.mk body.length 0)) (Date 2024 5 18 8 30 0 0 0))
    [0, 1, 2] [2, 0, 1] 0
    [lit "https://a.example.com/feed", lit "https://a.example.com/feed",
      lit "https://bb.example.com/feed"]
    (loadAvatars []) insertionSort_contract insertionSort_contract
    (by
      intro pos feedURL body _
      constructor
      · rintro ⟨k, _, _, hok⟩
        simp only [sampleWorld, Except.ok.injEq] at hok
        subst hok
        exact ⟨1, by decide, fun j hj => ⟨lit "timeout", by
          have : j = 0 := by omega
          subst this
          rfl⟩, rfl⟩
      · rintro ⟨k, _, _, hok⟩
        have hb : feedURL = body := by
          simp only [retryWorld, sampleWorld] at hok
          split at hok
          · exact Except.noConfusion hok
          · exact Except.ok.inj hok
        subst hb
        exact ⟨0, by decide, fun j hj => absurd hj (Nat.not_lt_zero j), rfl⟩)
    (fun _ _ _ _ _ _ => Iff.rfl) rfl
    (List.Perm.refl _)
    (by decide)
    (by
      intro pos feedURL body feed item rest _ _ hp hi
      obtain ⟨k, _, _, hok⟩ := hp
      simp only [sampleWorld, Except.ok.injEq] at hok
      subst hok
      simp only [List.cons.injEq] at hi
      rw [← hi.1]
      exact Or.inl (by simp))
    (by decide!)

end GrabLatestRSS
